import Mathlib

/-!
# Verification of the web2mcp discovery-and-replay engine

This file gives a shallow embedding, in Lean 4, of the core of the
web2mcp repository: the SPA crawler (traversal engine, extraction
pipeline, navigation/modal discriminator, operation synthesizer) from
`spaCrawler.ts` and the runtime dispatcher from `dynamicMcpServer.ts`.

The embedding follows the final iteration of each source file (the
crawler that seeds its visited set with the hash of the serialized empty
path and consumes the frontier with `shift`/`unshift`, and the
`DynamicMcpServer` whose `universalHandler` asks a relevance oracle for
a page-action index).

External collaborators (the Stagehand page-inspection oracle, the
OpenAI relevance oracle, and the live browser session) are modelled as
explicit inputs: each `observe` call site becomes a field of an oracle
structure holding either the returned element list or an error (a thrown
exception), and each per-element interaction outcome is a function of
the element selector.  All functions are executable.
-/

/-! ## String utilities (JavaScript semantics) -/

/-- `sub` occurs inside `l` (contiguously), as in JavaScript
`String.prototype.includes`. -/
def listContainsSub : List Char → List Char → Bool
  | _, [] => true
  | [], _ :: _ => false
  | h :: t, p =>
    if p.isPrefixOf (h :: t) then true else listContainsSub t p

/-- JavaScript `s.includes(pat)`. -/
def jsIncludes (s pat : String) : Bool :=
  listContainsSub s.data pat.data

/-- JavaScript `s.toLowerCase()` (character-wise lower-casing). -/
def jsToLower (s : String) : String :=
  String.mk (s.data.map Char.toLower)

/-! ## MD5 (crypto.createHash('md5') ... digest('hex'))

A byte-level model of MD5 over `Nat`, with 32-bit overflow made explicit
by `% 2^32`.  Validated against the RFC 1321 test vectors. -/

/-- UTF-8 byte sequence of a string (the bytes Node.js feeds to
`hash.update`). -/
def utf8Bytes (s : String) : List Nat :=
  s.data.flatMap (fun c =>
    let n := c.toNat
    if n < 0x80 then [n]
    else if n < 0x800 then
      [0xC0 + n / 64, 0x80 + n % 64]
    else if n < 0x10000 then
      [0xE0 + n / 4096, 0x80 + (n / 64) % 64, 0x80 + n % 64]
    else
      [0xF0 + n / 262144, 0x80 + (n / 4096) % 64, 0x80 + (n / 64) % 64, 0x80 + n % 64])

/-- The 64 MD5 sine-derived constants. -/
def md5K : List Nat :=
  [0xd76aa478, 0xe8c7b756, 0x242070db, 0xc1bdceee,
   0xf57c0faf, 0x4787c62a, 0xa8304613, 0xfd469501,
   0x698098d8, 0x8b44f7af, 0xffff5bb1, 0x895cd7be,
   0x6b901122, 0xfd987193, 0xa679438e, 0x49b40821,
   0xf61e2562, 0xc040b340, 0x265e5a51, 0xe9b6c7aa,
   0xd62f105d, 0x02441453, 0xd8a1e681, 0xe7d3fbc8,
   0x21e1cde6, 0xc33707d6, 0xf4d50d87, 0x455a14ed,
   0xa9e3e905, 0xfcefa3f8, 0x676f02d9, 0x8d2a4c8a,
   0xfffa3942, 0x8771f681, 0x6d9d6122, 0xfde5380c,
   0xa4beea44, 0x4bdecfa9, 0xf6bb4b60, 0xbebfbc70,
   0x289b7ec6, 0xeaa127fa, 0xd4ef3085, 0x04881d05,
   0xd9d4d039, 0xe6db99e5, 0x1fa27cf8, 0xc4ac5665,
   0xf4292244, 0x432aff97, 0xab9423a7, 0xfc93a039,
   0x655b59c3, 0x8f0ccc92, 0xffeff47d, 0x85845dd1,
   0x6fa87e4f, 0xfe2ce6e0, 0xa3014314, 0x4e0811a1,
   0xf7537e82, 0xbd3af235, 0x2ad7d2bb, 0xeb86d391]

/-- The 64 MD5 per-round left-rotation amounts. -/
def md5S : List Nat :=
  [7, 12, 17, 22, 7, 12, 17, 22, 7, 12, 17, 22, 7, 12, 17, 22,
   5, 9, 14, 20, 5, 9, 14, 20, 5, 9, 14, 20, 5, 9, 14, 20,
   4, 11, 16, 23, 4, 11, 16, 23, 4, 11, 16, 23, 4, 11, 16, 23,
   6, 10, 15, 21, 6, 10, 15, 21, 6, 10, 15, 21, 6, 10, 15, 21]

/-- `2^32`, the modulus of 32-bit machine arithmetic. -/
def mask32 : Nat := 4294967296

/-- 32-bit bitwise complement. -/
def not32 (x : Nat) : Nat := 4294967295 - x % mask32

/-- 32-bit left rotation. -/
def rotl32 (x k : Nat) : Nat :=
  ((x % mask32) * 2 ^ k + (x % mask32) / 2 ^ (32 - k)) % mask32

/-- MD5 padding: 0x80, zeros to 56 mod 64, then the 64-bit
little-endian bit length. -/
def md5Pad (msg : List Nat) : List Nat :=
  let len := msg.length
  let padLen := (55 + 64 - len % 64) % 64 + 1
  let bitLen := (len * 8) % (2 ^ 64)
  msg ++ (0x80 :: List.replicate (padLen - 1) 0) ++
    (List.range 8).map (fun i => bitLen / 2 ^ (8 * i) % 256)

/-- Little-endian 32-bit word `j` of a 64-byte chunk. -/
def leWord (b : List Nat) (j : Nat) : Nat :=
  (b.getD (4 * j) 0) + (b.getD (4 * j + 1) 0) * 256 +
  (b.getD (4 * j + 2) 0) * 65536 + (b.getD (4 * j + 3) 0) * 16777216

/-- One of the 64 MD5 rounds. -/
def md5Round (m : Nat → Nat) (i : Nat) :
    Nat × Nat × Nat × Nat → Nat × Nat × Nat × Nat :=
  fun st =>
    let a := st.1
    let b := st.2.1
    let c := st.2.2.1
    let d := st.2.2.2
    let f :=
      if i < 16 then Nat.lor (Nat.land b c) (Nat.land (not32 b) d)
      else if i < 32 then Nat.lor (Nat.land d b) (Nat.land (not32 d) c)
      else if i < 48 then Nat.xor (Nat.xor b c) d
      else Nat.xor c (Nat.lor b (not32 d))
    let g :=
      if i < 16 then i
      else if i < 32 then (5 * i + 1) % 16
      else if i < 48 then (3 * i + 5) % 16
      else (7 * i) % 16
    let fv := (f + a + md5K.getD i 0 + m g) % mask32
    (d, (b + rotl32 fv (md5S.getD i 0)) % mask32, b, c)

/-- Process one 64-byte chunk. -/
def md5Chunk (chunk : List Nat) : Nat × Nat × Nat × Nat → Nat × Nat × Nat × Nat :=
  fun st =>
    let m := fun j => leWord chunk j
    let r := (List.range 64).foldl (fun acc i => md5Round m i acc) st
    ((st.1 + r.1) % mask32, (st.2.1 + r.2.1) % mask32,
     (st.2.2.1 + r.2.2.1) % mask32, (st.2.2.2 + r.2.2.2) % mask32)

/-- Split a padded message into 64-byte chunks. -/
def chunks64 (l : List Nat) : List (List Nat) :=
  (List.range (l.length / 64)).map (fun i => (l.drop (64 * i)).take 64)

/-- Lower-case hexadecimal digit. -/
def hexDigit (n : Nat) : Char :=
  if n < 10 then Char.ofNat (48 + n) else Char.ofNat (87 + n)

/-- Two hex digits of a byte. -/
def hexByte (n : Nat) : List Char := [hexDigit (n / 16 % 16), hexDigit (n % 16)]

/-- Little-endian hex rendering of a 32-bit word. -/
def leHex32 (x : Nat) : List Char :=
  hexByte (x % 256) ++ hexByte (x / 256 % 256) ++
  hexByte (x / 65536 % 256) ++ hexByte (x / 16777216 % 256)

/-- The MD5 hex digest of a string, as produced by
`crypto.createHash('md5').update(s).digest('hex')`. -/
def md5Hex (s : String) : String :=
  let padded := md5Pad (utf8Bytes s)
  let st := (chunks64 padded).foldl (fun acc ch => md5Chunk ch acc)
    (0x67452301, 0xefcdab89, 0x98badcfe, 0x10325476)
  String.mk (leHex32 st.1 ++ leHex32 st.2.1 ++ leHex32 st.2.2.1 ++ leHex32 st.2.2.2)

/-! ## Path model and hashing -/

/-- One interaction Step of a Path (`PathObject` in the source):
an intra-state locator and the flag telling whether activating it is
expected to open a new state. -/
structure PathObject where
  intra_page_path : String
  is_new_link : Bool
deriving DecidableEq, Repr

/-- JSON string escaping as in `JSON.stringify`. -/
def jsonEscapeChar (c : Char) : List Char :=
  if c = '"' then ['\\', '"']
  else if c = '\\' then ['\\', '\\']
  else if c = Char.ofNat 8 then ['\\', 'b']
  else if c = Char.ofNat 9 then ['\\', 't']
  else if c = Char.ofNat 10 then ['\\', 'n']
  else if c = Char.ofNat 12 then ['\\', 'f']
  else if c = Char.ofNat 13 then ['\\', 'r']
  else if c.toNat < 32 then
    ['\\', 'u', '0', '0'] ++ hexByte c.toNat
  else [c]

/-- `JSON.stringify` of a string value. -/
def jsonStr (s : String) : String :=
  String.mk ('"' :: s.data.flatMap jsonEscapeChar ++ ['"'])

/-- `JSON.stringify` of one `PathObject` (keys in insertion order). -/
def serializeStep (p : PathObject) : String :=
  "\x7b\"intra_page_path\":" ++ jsonStr p.intra_page_path ++
  ",\"is_new_link\":" ++ (if p.is_new_link then "true" else "false") ++ "\x7d"

/-- `JSON.stringify` of a path (an array of `PathObject`s). -/
def serializePath (p : List PathObject) : String :=
  "[" ++ String.intercalate "," (p.map serializeStep) ++ "]"

/-- `page_hash` from the source: lower-case the string, then take the
MD5 hex digest. -/
def page_hash (url : String) : String :=
  md5Hex (jsToLower url)

/-! ## Crawler data model -/

/-- An element returned by a `stagehand.page.observe` call: a selector
and a free-text description. -/
structure Obs where
  selector : String
  description : String
deriving DecidableEq, Repr

/-- The closed `FormData['type']` vocabulary. -/
inductive FormType where
  | form | search | login | registration | contact | settings | checkout
  | feedback | newsletter | filter | delete | remove | unsubscribe | other
deriving DecidableEq, Repr

/-- The closed `FormInput['type']` vocabulary. -/
inductive InputType where
  | text | email | password | number | tel | url | search | textarea
  | select | checkbox | radio | file | date | datetimeLocal | time | month
  | week | color | range | hidden | submit | button | reset | image
deriving DecidableEq, Repr

/-- The `TableData['type']` vocabulary. -/
inductive TableType where
  | table | list | grid | card
deriving DecidableEq, Repr

/-- The `ClickableElement['type']` vocabulary. -/
inductive ClickType where
  | link | button | other
deriving DecidableEq, Repr

/-- The four CRUD kinds of the crawler (`FormData['operation']`). -/
inductive CrudOp where
  | CREATE | READ | UPDATE | DELETE
deriving DecidableEq, Repr

/-- `FormInput` from the source. -/
structure FormInput where
  selector : String
  type : InputType
  name : Option String := none
  id : Option String := none
  placeholder : Option String := none
  label : Option String := none
  required : Bool := false
  value : Option String := none
  options : Option (List String) := none
  description : String
deriving DecidableEq, Repr

/-- `FormData` from the source. -/
structure FormData where
  selector : String
  type : FormType
  inputs : List FormInput
  textContent : String
  elementCount : Nat
  operation : CrudOp
deriving DecidableEq, Repr

/-- `TableData` from the source. -/
structure TableData where
  selector : String
  type : TableType
  headers : Option (List String) := none
  rows : Option (List (List String)) := none
  textContent : String
  elementCount : Nat
deriving DecidableEq, Repr

/-- `ClickableElement` from the source. -/
structure ClickableElement where
  selector : String
  type : ClickType
  text : String
  href : Option String := none
  description : String
deriving DecidableEq, Repr

/-- `QueueItem` from the source: a frontier item. -/
structure QueueItem where
  path : List PathObject
  depth : Nat
deriving DecidableEq, Repr

/-! ## Keyword classifiers

Direct transcriptions of the `if`/`else if` chains of the source,
applied to the lower-cased description (`description` below is always
the already lower-cased string, as in the source). -/

/-- `determineFormOperation` from the source: the fixed
form-type-to-CRUD table. -/
def determineFormOperation (formType : FormType) : CrudOp :=
  match formType with
  | .search => .READ
  | .filter => .READ
  | .delete => .DELETE
  | .remove => .DELETE
  | .unsubscribe => .DELETE
  | .login => .CREATE
  | .registration => .CREATE
  | .contact => .CREATE
  | .feedback => .CREATE
  | .newsletter => .CREATE
  | .checkout => .CREATE
  | .settings => .UPDATE
  | _ => .CREATE

/-- Form-type classification in the primary form pass
(`extractFormData`, first loop). -/
def classifyFormType (description : String) : FormType :=
  if jsIncludes description "login" || jsIncludes description "sign in" ||
      jsIncludes description "signin" then .login
  else if jsIncludes description "register" || jsIncludes description "sign up" ||
      jsIncludes description "signup" then .registration
  else if jsIncludes description "search" || jsIncludes description "find" then .search
  else if jsIncludes description "contact" || jsIncludes description "message" ||
      jsIncludes description "support" then .contact
  else if jsIncludes description "settings" || jsIncludes description "preferences" ||
      jsIncludes description "profile" then .settings
  else if jsIncludes description "checkout" || jsIncludes description "payment" ||
      jsIncludes description "order" then .checkout
  else if jsIncludes description "feedback" || jsIncludes description "review" ||
      jsIncludes description "rating" then .feedback
  else if jsIncludes description "newsletter" || jsIncludes description "subscribe" then .newsletter
  else if jsIncludes description "filter" || jsIncludes description "sort" ||
      jsIncludes description "refine" then .filter
  else if jsIncludes description "delete" || jsIncludes description "remove" ||
      jsIncludes description "trash" then .delete
  else if jsIncludes description "unsubscribe" ||
      jsIncludes description "cancel subscription" then .unsubscribe
  else .other

/-- Input-type classification in the primary form pass (uses both the
lower-cased description and the raw selector). -/
def classifyInputTypePrimary (inputDesc selector : String) : InputType :=
  if jsIncludes inputDesc "password" || jsIncludes selector "password" then .password
  else if jsIncludes inputDesc "phone" || jsIncludes selector "tel" ||
      jsIncludes selector "phone" then .tel
  else if jsIncludes inputDesc "number" || jsIncludes selector "number" then .number
  else if jsIncludes inputDesc "url" || jsIncludes selector "url" then .url
  else if jsIncludes inputDesc "search" || jsIncludes selector "search" then .search
  else if jsIncludes inputDesc "textarea" || jsIncludes selector "textarea" then .textarea
  else if jsIncludes inputDesc "select" || jsIncludes selector "select" ||
      jsIncludes inputDesc "dropdown" || jsIncludes inputDesc "menu" then .select
  else if jsIncludes inputDesc "checkbox" then .checkbox
  else if jsIncludes inputDesc "radio" then .radio
  else if jsIncludes inputDesc "file" || jsIncludes selector "file" then .file
  else if jsIncludes inputDesc "date" || jsIncludes selector "date" then .date
  else if jsIncludes inputDesc "time" || jsIncludes selector "time" then .time
  else if jsIncludes inputDesc "submit" || jsIncludes inputDesc "button" ||
      jsIncludes selector "submit" || jsIncludes selector "button" then .submit
  else if jsIncludes inputDesc "hidden" then .hidden
  else .text

/-- Input-type classification in the standalone input-group pass. -/
def classifyInputTypeGroup (inputDesc : String) : InputType :=
  if jsIncludes inputDesc "search" then .search
  else if jsIncludes inputDesc "email" then .email
  else if jsIncludes inputDesc "password" then .password
  else if jsIncludes inputDesc "submit" || jsIncludes inputDesc "button" then .submit
  else .text

/-- Input-type classification in the search-element pass. -/
def classifyInputTypeSearch (inputDesc : String) : InputType :=
  if jsIncludes inputDesc "submit" || jsIncludes inputDesc "button" then .submit
  else .search

/-- Group-type classification in the standalone input-group pass. -/
def classifyGroupType (description : String) : FormType :=
  if jsIncludes description "search" then .search
  else if jsIncludes description "filter" then .filter
  else .other

/-- Collection-type classification in the first pass of
`extractTabularData` (uses description keywords and the selector). -/
def classifyTableType1 (description selector : String) : TableType :=
  if jsIncludes description "table" || jsIncludes selector "table" then .table
  else if jsIncludes description "list" || jsIncludes selector "ul" ||
      jsIncludes selector "ol" then .list
  else if jsIncludes description "grid" || jsIncludes description "row" ||
      jsIncludes description "collection" then .grid
  else .card

/-- "Likely a container with multiple items" guard of the first
tabular pass. -/
def tabularGuard1 (description : String) : Bool :=
  jsIncludes description "multiple" || jsIncludes description "list of" ||
  jsIncludes description "collection" || jsIncludes description "table" ||
  jsIncludes description "grid" || jsIncludes description "items" ||
  jsIncludes description "cards"

/-- Collection-type classification in the second pass of
`extractTabularData` (description keywords only). -/
def classifyTableType2 (description : String) : TableType :=
  if jsIncludes description "table" then .table
  else if jsIncludes description "list" then .list
  else if jsIncludes description "grid" || jsIncludes description "row" then .grid
  else .card

/-- "Clearly a collection container" guard of the second tabular pass. -/
def tabularGuard2 (description : String) : Bool :=
  jsIncludes description "list of" || jsIncludes description "collection" ||
  jsIncludes description "multiple" || jsIncludes description "items" ||
  jsIncludes description "emails" || jsIncludes description "products" ||
  jsIncludes description "users" || jsIncludes description "posts" ||
  jsIncludes description "articles"

/-! ## Oracle models

Each `observe` call site of an extractor becomes one field: either the
element list the oracle returned, or `.error ()` when the call threw.
Nested calls whose instruction embeds a container selector are modelled
as functions of that selector. -/

/-- The two `observe` call sites of `extractTabularData`. -/
structure TabularOracle where
  containers : Except Unit (List Obs)
  dataCollections : Except Unit (List Obs)

/-- The seven `observe` call sites of `extractFormData`.  The form
query's instruction depends on whether a modal is open, so it is a
function of that flag. -/
structure FormOracle where
  modalElements : Except Unit (List Obs)
  forms : Bool → Except Unit (List Obs)
  formInputs : String → Except Unit (List Obs)
  inputGroups : Except Unit (List Obs)
  groupInputs : String → Except Unit (List Obs)
  searchElements : Except Unit (List Obs)
  searchInputs : String → Except Unit (List Obs)

/-! ## extractFormData -/

/-- Input-entity synthesis in the primary form pass. -/
def mkPrimaryInput (input : Obs) : FormInput :=
  let inputDesc := jsToLower input.description
  let isRequired := jsIncludes inputDesc "required" || jsIncludes inputDesc "mandatory"
  let hasPlaceholder := jsIncludes inputDesc "placeholder" || jsIncludes inputDesc "hint"
  let hasLabel := jsIncludes inputDesc "label" || jsIncludes inputDesc "title"
  let options : List String := []
  { selector := input.selector
    type := classifyInputTypePrimary inputDesc input.selector
    description := input.description
    required := isRequired
    placeholder := if hasPlaceholder then some "Has placeholder" else none
    label := if hasLabel then some "Has label" else none
    options := if options.length > 0 then some options else none }

/-- Input-entity synthesis in the standalone input-group pass. -/
def mkGroupInput (input : Obs) : FormInput :=
  let inputDesc := jsToLower input.description
  { selector := input.selector
    type := classifyInputTypeGroup inputDesc
    description := input.description
    required := jsIncludes inputDesc "required" }

/-- Input-entity synthesis in the search-element pass. -/
def mkSearchInput (input : Obs) : FormInput :=
  let inputDesc := jsToLower input.description
  { selector := input.selector
    type := classifyInputTypeSearch inputDesc
    description := input.description
    required := jsIncludes inputDesc "required" }

/-- The shared inner input loop of all three form passes: walk the
oracle-reported inputs, skipping any selector already present in
`usedInputSelectors`, and claim the rest.  Returns the synthesized
inputs and the grown used-selector set. -/
def buildInputs (mk : Obs → FormInput) :
    List Obs → List String → List FormInput × List String
  | [], used => ([], used)
  | i :: rest, used =>
    if used.contains i.selector then buildInputs mk rest used
    else
      let r := buildInputs mk rest (i.selector :: used)
      (mk i :: r.1, r.2)

/-- The mutable state threaded through the three form passes:
accumulated forms, the seen container-selector set and the used
input-selector set. -/
structure PassState where
  fd : List FormData
  seen : List String
  used : List String
deriving Repr

/-- The loop shared by the three form passes, applied to one pass's
container query, container guard, input synthesis `mk` and form
synthesis `mkF`: skip a container whose selector is already seen,
check the pass's guard, query its inputs (a thrown query makes the
`Bool` component false: the exception propagates to the outer catch, so
the accumulated state is returned and nothing later runs), dedup and
claim the inputs, and retain the form only if it kept at least one
input. -/
def genPass (query : String → Except Unit (List Obs)) (guard : Obs → Bool)
    (mk : Obs → FormInput) (mkF : Obs → List FormInput → FormData) :
    List Obs → PassState → PassState × Bool
  | [], st => (st, true)
  | c :: rest, st =>
    if st.seen.contains c.selector then genPass query guard mk mkF rest st
    else if guard c then
      match query c.selector with
      | .error _ => (st, false)
      | .ok obs =>
        let r := buildInputs mk obs st.used
        if r.1.length > 0 then
          genPass query guard mk mkF rest
            { fd := st.fd ++ [mkF c r.1]
              seen := c.selector :: st.seen
              used := r.2 }
        else genPass query guard mk mkF rest { st with used := r.2 }
    else genPass query guard mk mkF rest st

/-- Form synthesis of the primary form pass. -/
def mkPrimaryForm (form : Obs) (inputs : List FormInput) : FormData :=
  let description := jsToLower form.description
  let formType := classifyFormType description
  { selector := form.selector
    type := formType
    inputs := inputs
    textContent := form.description
    elementCount := inputs.length
    operation := determineFormOperation formType }

/-- The primary form pass (no container guard). -/
def primaryPass (o : FormOracle) : List Obs → PassState → PassState × Bool :=
  genPass o.formInputs (fun _ => true) mkPrimaryInput mkPrimaryForm

/-- The container guard of the standalone input-group pass. -/
def groupGuard (group : Obs) : Bool :=
  let description := jsToLower group.description
  jsIncludes description "input" || jsIncludes description "search" ||
  jsIncludes description "filter" || jsIncludes description "form"

/-- Form synthesis of the standalone input-group pass. -/
def mkGroupForm (group : Obs) (inputs : List FormInput) : FormData :=
  let description := jsToLower group.description
  let groupType := classifyGroupType description
  { selector := group.selector
    type := groupType
    inputs := inputs
    textContent := group.description
    elementCount := inputs.length
    operation := determineFormOperation groupType }

/-- The standalone input-group pass. -/
def groupPass (o : FormOracle) : List Obs → PassState → PassState × Bool :=
  genPass o.groupInputs groupGuard mkGroupInput mkGroupForm

/-- The "search-related" check of the third pass. -/
def isSearchRelated (description selector : String) : Bool :=
  jsIncludes description "search" || jsIncludes description "find" ||
  jsIncludes description "filter" || jsIncludes selector "search" ||
  (jsIncludes description "placeholder" && jsIncludes description "search")

/-- The container guard of the search-element pass. -/
def searchGuard (searchElement : Obs) : Bool :=
  isSearchRelated (jsToLower searchElement.description) searchElement.selector

/-- Form synthesis of the search-element pass (always a search form). -/
def mkSearchForm (searchElement : Obs) (inputs : List FormInput) : FormData :=
  { selector := searchElement.selector
    type := .search
    inputs := inputs
    textContent := searchElement.description
    elementCount := inputs.length
    operation := determineFormOperation .search }

/-- The search-element pass. -/
def searchPass (o : FormOracle) : List Obs → PassState → PassState × Bool :=
  genPass o.searchInputs searchGuard mkSearchInput mkSearchForm

/-- `extractFormData` from the source.  `existingFormSelectors` seeds
the seen set (the optional parameter; the empty list models passing
nothing).  Oracle failures are caught by the outer `try`/`catch`, which
returns whatever `formData` had accumulated. -/
def extractFormData (existingFormSelectors : List String) (o : FormOracle) :
    List FormData :=
  let st0 : PassState := { fd := [], seen := existingFormSelectors, used := [] }
  match o.modalElements with
  | .error _ => []
  | .ok modalElements =>
    let isModalOpen := modalElements.length > 0
    match o.forms isModalOpen with
    | .error _ => []
    | .ok forms =>
      let r1 := primaryPass o forms st0
      if !r1.2 then r1.1.fd
      else
        match o.inputGroups with
        | .error _ => r1.1.fd
        | .ok inputGroups =>
          let r2 := groupPass o inputGroups r1.1
          if !r2.2 then r2.1.fd
          else
            match o.searchElements with
            | .error _ => r2.1.fd
            | .ok searchElements => (searchPass o searchElements r2.1).1.fd

/-! ## extractTabularData -/

/-- One step of the first tabular pass. -/
def tabStep1 (acc : List TableData × List String) (container : Obs) :
    List TableData × List String :=
  let description := jsToLower container.description
  let type := classifyTableType1 description container.selector
  if tabularGuard1 description then
    if !acc.2.contains container.selector then
      (acc.1 ++ [{ selector := container.selector
                   type := type
                   textContent := container.description
                   elementCount := 1 }],
       container.selector :: acc.2)
    else acc
  else acc

/-- One step of the second tabular pass. -/
def tabStep2 (acc : List TableData × List String) (element : Obs) :
    List TableData × List String :=
  let description := jsToLower element.description
  if !acc.2.contains element.selector then
    let type := classifyTableType2 description
    if tabularGuard2 description then
      (acc.1 ++ [{ selector := element.selector
                   type := type
                   textContent := element.description
                   elementCount := 1 }],
       element.selector :: acc.2)
    else acc
  else acc

/-- `extractTabularData` from the source.  A throwing `observe` is
caught by the outer `try`/`catch`, returning the rows accumulated so
far. -/
def extractTabularData (o : TabularOracle) : List TableData :=
  match o.containers with
  | .error _ => []
  | .ok containers =>
    let acc1 := containers.foldl tabStep1 ([], [])
    match o.dataCollections with
    | .error _ => acc1.1
    | .ok dataCollections => (dataCollections.foldl tabStep2 acc1).1

/-! ## extractClickableElements -/

/-- First match of the pattern `key["']([^"']+)["']` in `s`, as
JavaScript `String.prototype.match` with that regular expression:
scan left to right for `key` followed by a quote, a maximal nonempty
run of non-quote characters, and a closing quote. -/
def matchKeyQuoted (key : List Char) : List Char → Option String
  | [] => none
  | h :: t =>
    match (key.isPrefixOf (h :: t) : Bool) with
    | true =>
      let afterKey := (h :: t).drop key.length
      match afterKey with
      | q :: u =>
        if q = '"' || q = '\'' then
          let cap := u.takeWhile (fun c => c ≠ '"' && c ≠ '\'')
          let restAfter := u.drop cap.length
          match restAfter with
          | q2 :: _ =>
            if cap.length > 0 && (q2 = '"' || q2 = '\'') then
              some (String.mk cap)
            else matchKeyQuoted key t
          | [] => matchKeyQuoted key t
        else matchKeyQuoted key t
      | [] => matchKeyQuoted key t
    | false => matchKeyQuoted key t

/-- `description.match(/href=["']([^"']+)["']/)` (on the lower-cased
description, as in the source). -/
def matchHref (description : String) : Option String :=
  matchKeyQuoted "href=".data description.data

/-- `description.match(/text=["']([^"']+)["']/)` (on the lower-cased
description, as in the source). -/
def matchText (description : String) : Option String :=
  matchKeyQuoted "text=".data description.data

/-- The logout / session-ending vocabulary filter. -/
def isLogoutElement (description text : String) : Bool :=
  jsIncludes description "logout" || jsIncludes description "log out" ||
  jsIncludes description "sign out" || jsIncludes description "signout" ||
  jsIncludes (jsToLower text) "logout" || jsIncludes (jsToLower text) "log out" ||
  jsIncludes (jsToLower text) "sign out" || jsIncludes (jsToLower text) "signout"

/-- Link/button/other classification of a clickable element. -/
def clickType (element : Obs) : ClickType :=
  let description := jsToLower element.description
  let isLink := jsIncludes element.selector "a[href" ||
    jsIncludes description "link" || jsIncludes description "href"
  if isLink then .link
  else if jsIncludes element.selector "button" ||
      jsIncludes description "button" then .button
  else .other

/-- The extracted `href`, when the element is a link and its
description shows one. -/
def clickHref (element : Obs) : Option String :=
  let description := jsToLower element.description
  let isLink := jsIncludes element.selector "a[href" ||
    jsIncludes description "link" || jsIncludes description "href"
  if isLink && jsIncludes description "href=" then matchHref description else none

/-- The display text: the `text=` capture when present, otherwise the
whole description. -/
def clickText (element : Obs) : String :=
  let description := jsToLower element.description
  if jsIncludes description "text=" then
    match matchText description with
    | some t => t
    | none => element.description
  else element.description

/-- The clickable entity synthesized from one observed element. -/
def clickElem (element : Obs) : ClickableElement :=
  { selector := element.selector
    type := clickType element
    text := clickText element
    href := clickHref element
    description := element.description }

/-- The retention guard of the clickable loop: not a session-ending
element, not a form input already claimed, and clearly clickable. -/
def clickKeep (formInputSelectors : List String) (element : Obs) : Bool :=
  let description := jsToLower element.description
  !isLogoutElement description (clickText element) &&
  !formInputSelectors.contains element.selector &&
  (clickType element ≠ .other || jsIncludes description "click" ||
   jsIncludes description "button" || jsIncludes description "link")

/-- One step of the clickable-element loop. -/
def clickStep (formInputSelectors : List String)
    (acc : List ClickableElement × List String) (element : Obs) :
    List ClickableElement × List String :=
  if acc.2.contains element.selector then acc
  else if clickKeep formInputSelectors element then
    (acc.1 ++ [clickElem element], element.selector :: acc.2)
  else acc

/-- `extractClickableElements` from the source.  The optional
`formInputSelectors` parameter is the cross-classifier dedup set; the
empty list models passing nothing. -/
def extractClickableElements (o : Except Unit (List Obs))
    (formInputSelectors : List String) : List ClickableElement :=
  match o with
  | .error _ => []
  | .ok clickables => (clickables.foldl (clickStep formInputSelectors) ([], [])).1

/-! ## Navigation/modal discriminator -/

/-- What happened when `testNavigationAndModals` clicked one element:
the click (or the navigate-back) threw; the address changed
(navigation); or the address was unchanged, with the result of the
modal-presence `observe` and, scoped to this element, the form oracle
used for the modal extraction. -/
inductive ClickOutcome where
  | errOut
  | navigated
  | stayed (modalContent : Except Unit (List Obs)) (modalOracle : FormOracle)

/-- One recorded modal interaction. -/
structure ModalOp where
  trigger : ClickableElement
  modalContent : List Obs
  forms : List FormData
deriving DecidableEq, Repr

/-- `testNavigationAndModals` from the source: classify each surviving
clickable element as a navigation edge or a modal interaction.
Per-element failures drop that element only; an element whose click
neither navigates nor reveals an overlay is discarded. -/
def testNavigationAndModals (outcome : String → ClickOutcome)
    (existingFormSelectors : List String) :
    List ClickableElement → List ClickableElement × List ModalOp
  | [] => ([], [])
  | element :: rest =>
    let r := testNavigationAndModals outcome existingFormSelectors rest
    match outcome element.selector with
    | .errOut => r
    | .navigated => (element :: r.1, r.2)
    | .stayed modalContent modalOracle =>
      match modalContent with
      | .error _ => r
      | .ok mc =>
        if mc.length > 0 then
          (r.1, { trigger := element
                  modalContent := mc
                  forms := extractFormData existingFormSelectors modalOracle } :: r.2)
        else r

/-! ## Operation records -/

/-- The `type` field of a persisted record: either a collection type
(from `extractTabularData`) or a form type (from `extractFormData`);
the two string vocabularies of the source are disjoint. -/
inductive EType where
  | coll (t : TableType)
  | form (t : FormType)
deriving DecidableEq, Repr

/-- Is this record a collection-classifier record? -/
def EType.isColl : EType → Bool
  | .coll _ => true
  | .form _ => false

/-- Is this record a form-classifier record? -/
def EType.isForm : EType → Bool
  | .coll _ => false
  | .form _ => true

/-- An input as persisted inside an operation record (only type,
required, placeholder, label and options survive). -/
structure RecordInput where
  type : InputType
  required : Bool
  placeholder : Option String
  label : String
  options : Option (List String)
deriving DecidableEq, Repr

/-- JavaScript `a || b` for an optional string `a` (an absent or empty
string falls through to `b`). -/
def jsOr (a : Option String) (b : String) : String :=
  match a with
  | some s => if s = "" then b else s
  | none => b

/-- An operation record pushed onto `crud_operations`. -/
structure CrudRecord where
  operation : CrudOp
  type : EType
  selector : String
  elementCount : Nat
  hasHeaders : Option Bool := none
  hasRows : Option Bool := none
  inputs : Option (List RecordInput) := none
  textContent : String
  path : List PathObject
deriving DecidableEq, Repr

/-- `textContent.substring(0, 200) + (textContent.length > 200 ? '...' : '')`. -/
def truncate200 (s : String) : String :=
  String.mk (s.data.take 200) ++ (if s.data.length > 200 then "..." else "")

/-- The READ record synthesized from one collection entity. -/
def mkReadRecord (current_path : List PathObject) (data : TableData) : CrudRecord :=
  { operation := .READ
    type := .coll data.type
    selector := data.selector
    elementCount := data.elementCount
    hasHeaders := some data.headers.isSome
    hasRows := some data.rows.isSome
    textContent := truncate200 data.textContent
    path := current_path }

/-- The record-input projection used by both form-record synthesis
sites (note the `input.label || input.description` fallback). -/
def recInputOf (input : FormInput) : RecordInput :=
  { type := input.type
    required := input.required
    placeholder := input.placeholder
    label := jsOr input.label input.description
    options := input.options }

/-- The record synthesized from one page-level form entity. -/
def mkFormRecord (current_path : List PathObject) (form : FormData) : CrudRecord :=
  { operation := form.operation
    type := .form form.type
    selector := form.selector
    elementCount := form.elementCount
    inputs := some (form.inputs.map recInputOf)
    textContent := truncate200 form.textContent
    path := current_path }

/-- The record synthesized from one modal form entity: same fields, but
the owning path is the current path extended by the modal trigger with
`is_new_link := false`. -/
def mkModalRecord (current_path : List PathObject) (triggerSelector : String)
    (form : FormData) : CrudRecord :=
  { operation := form.operation
    type := .form form.type
    selector := form.selector
    elementCount := form.elementCount
    inputs := some (form.inputs.map recInputOf)
    textContent := truncate200 form.textContent
    path := current_path ++ [{ intra_page_path := triggerSelector, is_new_link := false }] }

/-! ## The main crawling loop -/

/-- Everything the environment (page oracles and click outcomes) can
answer while the crawler sits in one state. -/
structure StateEnv where
  tabular : TabularOracle
  form : FormOracle
  clickables : Except Unit (List Obs)
  outcome : String → ClickOutcome

/-- A crawl environment: the oracle answers for each state, keyed by
the path that reaches it (each state is replayed from the root by its
path, so the path determines the state). -/
def Env : Type := List PathObject → StateEnv

/-- The crawler state between loop iterations. -/
structure CrawlState where
  queue : List QueueItem
  seen : List String
  ops : List CrudRecord

/-- Tabular data extracted while at path `p`. -/
def iterTD (env : Env) (p : List PathObject) : List TableData :=
  extractTabularData (env p).tabular

/-- Page-level form data extracted while at path `p` (no
`existingFormSelectors` argument at this call site). -/
def iterFD (env : Env) (p : List PathObject) : List FormData :=
  extractFormData [] (env p).form

/-- `formInputSelectors`: all truthy input selectors of the page forms. -/
def iterFIS (env : Env) (p : List PathObject) : List String :=
  ((iterFD env p).flatMap (fun form => form.inputs)).filterMap
    (fun input => if input.selector = "" then none else some input.selector)

/-- `existingFormSelectors`: the page form container selectors. -/
def iterEFS (env : Env) (p : List PathObject) : List String :=
  (iterFD env p).map (fun form => form.selector)

/-- Clickable elements extracted while at path `p`. -/
def iterCE (env : Env) (p : List PathObject) : List ClickableElement :=
  extractClickableElements (env p).clickables (iterFIS env p)

/-- Navigation elements and modal operations discovered at path `p`. -/
def iterNM (env : Env) (p : List PathObject) :
    List ClickableElement × List ModalOp :=
  testNavigationAndModals (env p).outcome (iterEFS env p) (iterCE env p)

/-- All records pushed during the iteration at path `p`, in push order:
READ records, then page form records, then modal form records. -/
def iterRecs (env : Env) (p : List PathObject) : List CrudRecord :=
  (iterTD env p).map (mkReadRecord p) ++
  (iterFD env p).map (mkFormRecord p) ++
  (iterNM env p).2.flatMap
    (fun modalOp => modalOp.forms.map (mkModalRecord p modalOp.trigger.selector))

/-- The navigation-edge enqueue loop: for each navigation element build
the extended path, hash its serialization, and if the hash is unseen add
it to the seen set and `unshift` the new frontier item. -/
def enqueueNav (p : List PathObject) (depth : Nat) :
    List ClickableElement → List String × List QueueItem →
    List String × List QueueItem
  | [], acc => acc
  | element :: rest, acc =>
    let newPath := p ++ [{ intra_page_path := element.selector, is_new_link := true }]
    let pathHash := page_hash (serializePath newPath)
    if acc.1.contains pathHash then enqueueNav p depth rest acc
    else enqueueNav p depth rest (pathHash :: acc.1, ⟨newPath, depth + 1⟩ :: acc.2)

/-- One iteration of the main loop, on the dequeued item. -/
def nextState (env : Env) (maxDepth : Nat) (item : QueueItem)
    (rest : List QueueItem) (seen : List String) (ops : List CrudRecord) :
    CrawlState :=
  let ops' := ops ++ iterRecs env item.path
  if item.depth < maxDepth then
    let r := enqueueNav item.path item.depth (iterNM env item.path).1 (seen, rest)
    { queue := r.2, seen := r.1, ops := ops' }
  else { queue := rest, seen := seen, ops := ops' }

/-- The main crawling loop, fuel-indexed: `crawl env maxDepth n st` is
the crawler state after at most `n` iterations, so ranging over `n`
ranges over every state the loop ever reaches. -/
def crawl (env : Env) (maxDepth : Nat) : Nat → CrawlState → CrawlState
  | 0, st => st
  | fuel + 1, st =>
    match st.queue with
    | [] => st
    | item :: rest =>
      crawl env maxDepth fuel (nextState env maxDepth item rest st.seen st.ops)

/-- The initial crawler state: the empty path at depth 0, and the seen
set seeded with the hash of the serialized root path. -/
def initState : CrawlState :=
  { queue := [{ path := [], depth := 0 }]
    seen := [page_hash (serializePath ([] : List PathObject))]
    ops := [] }

/-! ## The runtime dispatcher (`dynamicMcpServer.ts`) -/

/-- A tool declaration from the loaded server configuration. -/
structure ToolConfig where
  name : String
  description : String
deriving DecidableEq, Repr

/-- The loaded server configuration (its registered tool set). -/
structure ServerConfig where
  tools : List ToolConfig

/-- `PageAction['operation']`: the crawler's four CRUD kinds plus
`UNSPECIFIED` (used only by the fallback record). -/
inductive DispatchOp where
  | READ | CREATE | UPDATE | DELETE | UNSPECIFIED
deriving DecidableEq, Repr

/-- An input carried by a loaded page action. -/
structure PageActionInput where
  type : String
  required : Bool
  label : String
  placeholder : Option String := none
  options : Option (List String) := none
  description : String
  selector : String
deriving DecidableEq, Repr

/-- A loaded page action (one corpus record at serve time). -/
structure PageAction where
  operation : DispatchOp
  type : String
  selector : String
  elementCount : Nat
  hasHeaders : Option Bool := none
  hasRows : Option Bool := none
  inputs : Option (List PageActionInput) := none
  textContent : String
  path : List PathObject
deriving DecidableEq, Repr

/-- `findToolConfig`: look the invoked name up in the loaded
configuration. -/
def findToolConfig (loadedConfig : Option ServerConfig) (name : String) :
    Option ToolConfig :=
  match loadedConfig with
  | none => none
  | some config => config.tools.find? (fun tool => tool.name = name)

/-- The default page action used when no corpus record was selected. -/
def defaultPageAction (toolConfig : ToolConfig) : PageAction :=
  { operation := .UNSPECIFIED
    type := "default"
    selector := "body"
    elementCount := 1
    textContent := toolConfig.name ++ ": " ++ toolConfig.description
    path := [] }

/-- What the live browser session did for one replay: the session-level
code threw (login / navigation / cleanup failure), the inner agent call
threw (caught separately, replay still succeeds), or the agent finished
with a free-text outcome. -/
inductive BrowserOutcome where
  | crashed
  | agentFailed (message : String)
  | finished (message : String)

/-- The structured result of `executePageAction`'s browser block. -/
structure ExecResult where
  success : Bool
  pageAction : PageAction
deriving DecidableEq, Repr

/-- Run the browser block on a chosen page action: every session-level
exception is caught and reported as `success := false`; an agent error
alone still yields `success := true`. -/
def runBrowser (outcome : BrowserOutcome) (pageAction : PageAction) : ExecResult :=
  match outcome with
  | .crashed => { success := false, pageAction := pageAction }
  | .agentFailed _ => { success := true, pageAction := pageAction }
  | .finished _ => { success := true, pageAction := pageAction }

/-- `executePageAction` from the source: `none` (JavaScript `null`)
selects the default page action; an out-of-range index throws; an
in-range index selects the stored action. -/
def executePageAction (pageActions : List PageAction)
    (pageActionIndex : Option Int) (toolConfig : ToolConfig)
    (outcome : BrowserOutcome) : Except String ExecResult :=
  match pageActionIndex with
  | none => .ok (runBrowser outcome (defaultPageAction toolConfig))
  | some i =>
    if i < 0 || (pageActions.length : Int) ≤ i then
      .error "Invalid page action index"
    else
      match pageActions.get? i.toNat with
      | some pageAction => .ok (runBrowser outcome pageAction)
      | none => .error "Invalid page action index"

/-- The structured value `universalHandler` resolves with. -/
inductive HandlerResult where
  | configNotFound (name : String)
  | ok (selectedPageAction : Option PageAction) (executionResult : ExecResult)
  | failed (selectedPageAction : Option PageAction) (error : String)
deriving DecidableEq, Repr

/-- `universalHandler` from the source.  `oracle` is the relevance
oracle (`callChatGPT`): either the integer it replied with, or an error
covering a thrown call and an unparseable reply.  The reply is
validated against `[0, pageActions.length)`; failures degrade to no
selection, and the chosen (or default) action is then executed. -/
def universalHandler (loadedConfig : Option ServerConfig)
    (pageActions : List PageAction) (name : String)
    (oracle : Except Unit Int) (browser : BrowserOutcome) : HandlerResult :=
  match findToolConfig loadedConfig name with
  | none => .configNotFound name
  | some toolConfig =>
    let selectedIndex : Option Int :=
      match oracle with
      | .error _ => none
      | .ok i => if i < 0 || (pageActions.length : Int) ≤ i then none else some i
    match executePageAction pageActions selectedIndex toolConfig browser with
    | .ok executionResult =>
      .ok (selectedIndex.bind (fun i => pageActions.get? i.toNat)) executionResult
    | .error e =>
      .failed (selectedIndex.bind (fun i => pageActions.get? i.toNat)) e

/-! ## Path measures and invariant predicates -/

/-- The number of Steps of a path flagged `is_new_link = true`
(navigation Steps). -/
def countTrue (p : List PathObject) : Nat :=
  (p.filter (fun s => s.is_new_link)).length

/-- Every Step of the path is a navigation Step. -/
def allTrue (p : List PathObject) : Prop :=
  ∀ s ∈ p, s.is_new_link = true

/-- The flattened input-selector list of a form list. -/
def inpFlat (fd : List FormData) : List String :=
  fd.flatMap (fun f => f.inputs.map (fun i => i.selector))

/-- The invariant threaded through the three form passes: container
selectors are distinct and seen, input selectors are globally distinct,
the used set holds exactly the claimed input selectors, and every
retained form carries the CRUD kind of its type. -/
def PassInv (st : PassState) : Prop :=
  (st.fd.map (fun f => f.selector)).Nodup ∧
  (∀ f ∈ st.fd, f.selector ∈ st.seen) ∧
  (inpFlat st.fd).Nodup ∧
  (∀ s : String, s ∈ st.used ↔ s ∈ inpFlat st.fd) ∧
  (∀ f ∈ st.fd, f.operation = determineFormOperation f.type)

/-- The selector `sel` is the only container owning input selector `s`
among the forms `fd`. -/
def onlyClaimedBy (s sel : String) (fd : List FormData) : Prop :=
  ∀ f ∈ fd, s ∈ f.inputs.map (fun i => i.selector) → f.selector = sel

/-- The shape of a record's owning path: its base (the visited state's
path) is all-navigation, and the record path is the base itself
(table/form record) or the base plus one non-navigating modal trigger
Step. -/
def OpShape (r : CrudRecord) (base : List PathObject) : Prop :=
  allTrue base ∧
  (r.path = base ∨ ∃ s, r.path = base ++ [s] ∧ s.is_new_link = false)

/-- The corrected uniqueness relation on corpus records: two records
may share a `(path, selector)` pair only if one is a collection record
and the other a form record (necessarily of the same state). -/
def Ramend (a b : CrudRecord) : Prop :=
  a.path = b.path → a.selector = b.selector →
    (a.type.isColl = true ∧ b.type.isForm = true) ∨
    (a.type.isForm = true ∧ b.type.isColl = true)

/-- The main-loop invariant: frontier items carry their path length as
depth, use only navigation Steps, and respect the depth bound; frontier
paths are pairwise distinct and hashed into the seen set; every corpus
record has a bounded, all-navigation base path that is hashed and never
re-enters the frontier; and corpus records satisfy the corrected
uniqueness relation. -/
def CrawlInv (maxDepth : Nat) (st : CrawlState) : Prop :=
  (∀ it ∈ st.queue, it.depth = it.path.length ∧ allTrue it.path ∧ it.depth ≤ maxDepth) ∧
  st.queue.Pairwise (fun a b => a.path ≠ b.path) ∧
  (∀ it ∈ st.queue, page_hash (serializePath it.path) ∈ st.seen) ∧
  (∀ r ∈ st.ops, ∃ base, OpShape r base ∧ base.length ≤ maxDepth ∧
     page_hash (serializePath base) ∈ st.seen ∧ ∀ it ∈ st.queue, base ≠ it.path) ∧
  st.ops.Pairwise Ramend

/-! ## The specification's CRUD table (for the refinement check) -/

/-- The form-type-to-CRUD table exactly as the specification words it:
search and filter map to READ; delete, remove and unsubscribe map to
DELETE; login, registration, contact, feedback, newsletter and checkout
map to CREATE; settings maps to UPDATE; everything else defaults to
CREATE. -/
def crudKindSpec (formType : FormType) : CrudOp :=
  if formType = .search || formType = .filter then .READ
  else if formType = .delete || formType = .remove || formType = .unsubscribe then .DELETE
  else if formType = .login || formType = .registration || formType = .contact ||
      formType = .feedback || formType = .newsletter || formType = .checkout then .CREATE
  else if formType = .settings then .UPDATE
  else .CREATE

/-! ## Concrete fixtures (deterministic stub oracles used by the
witnesses and counterexamples) -/

/-- A tabular oracle reporting one table container with selector `#x`. -/
def cTabOracle : TabularOracle :=
  { containers := .ok [⟨"#x", "Table with multiple items"⟩]
    dataCollections := .ok [] }

/-- A form oracle reporting one login form, also with selector `#x`. -/
def cFormOracle : FormOracle :=
  { modalElements := .ok []
    forms := fun _ => .ok [⟨"#x", "Login form"⟩]
    formInputs := fun _ => .ok [⟨"#inp", "Username text input required"⟩]
    inputGroups := .ok []
    groupInputs := fun _ => .ok []
    searchElements := .ok []
    searchInputs := fun _ => .ok [] }

/-- An environment whose every state shows the `#x` table and the `#x`
login form, with no clickable elements. -/
def cEnvDup : Env := fun _ =>
  { tabular := cTabOracle
    form := cFormOracle
    clickables := .ok []
    outcome := fun _ => .errOut }

/-- The form entity `extractFormData` synthesizes from `cFormOracle`. -/
def cLoginFormData : FormData :=
  { selector := "#x"
    type := .login
    inputs := [{ selector := "#inp"
                 type := .text
                 description := "Username text input required"
                 required := true }]
    textContent := "Login form"
    elementCount := 1
    operation := .CREATE }

/-- The READ record the crawl at `cEnvDup` appends for the table. -/
def cReadRecord : CrudRecord :=
  { operation := .READ
    type := .coll .table
    selector := "#x"
    elementCount := 1
    hasHeaders := some false
    hasRows := some false
    textContent := "Table with multiple items"
    path := [] }

/-- A form oracle whose primary pass succeeds and whose input-group
query then throws. -/
def cFormOracleAbort : FormOracle :=
  { cFormOracle with inputGroups := .error () }

/-- A form oracle whose very first `observe` (the modal check) throws. -/
def cFormOracleDead : FormOracle :=
  { modalElements := .error ()
    forms := fun _ => .ok []
    formInputs := fun _ => .ok []
    inputGroups := .ok []
    groupInputs := fun _ => .ok []
    searchElements := .ok []
    searchInputs := fun _ => .ok [] }

/-- A tabular oracle whose first `observe` throws. -/
def cTabOracleDead : TabularOracle :=
  { containers := .error (), dataCollections := .ok [] }

/-- Two one-Step paths whose selectors differ only in letter case. -/
def pathCaseA : List PathObject := [⟨"#A", true⟩]

/-- See `pathCaseA`. -/
def pathCaseB : List PathObject := [⟨"#a", true⟩]

/-- A form oracle reporting two forms whose input queries overlap on
the selector `#shared`. -/
def cOverlapOracle : FormOracle :=
  { modalElements := .ok []
    forms := fun _ => .ok [⟨"#fa", "Login form"⟩, ⟨"#fb", "Contact form"⟩]
    formInputs := fun _ => .ok [⟨"#shared", "Email input"⟩]
    inputGroups := .ok []
    groupInputs := fun _ => .ok []
    searchElements := .ok []
    searchInputs := fun _ => .ok [] }

/-- A form oracle with every query empty (a state without forms). -/
def cEmptyFormOracle : FormOracle :=
  { modalElements := .ok []
    forms := fun _ => .ok []
    formInputs := fun _ => .ok []
    inputGroups := .ok []
    groupInputs := fun _ => .ok []
    searchElements := .ok []
    searchInputs := fun _ => .ok [] }

/-- The form oracle scoped to a delete-confirmation overlay. -/
def cDeleteFormOracle : FormOracle :=
  { modalElements := .ok [⟨"#modal", "Delete confirmation modal"⟩]
    forms := fun _ => .ok [⟨"#delform", "Delete confirmation form"⟩]
    formInputs := fun _ => .ok [⟨"#confirm", "Confirm delete button submit"⟩]
    inputGroups := .ok []
    groupInputs := fun _ => .ok []
    searchElements := .ok []
    searchInputs := fun _ => .ok [] }

/-- The delete-type form entity extracted from `cDeleteFormOracle`. -/
def cDeleteForm : FormData :=
  { selector := "#delform"
    type := .delete
    inputs := [{ selector := "#confirm"
                 type := .submit
                 description := "Confirm delete button submit"
                 required := false }]
    textContent := "Delete confirmation form"
    elementCount := 1
    operation := .DELETE }

/-- The clickable entity whose activation reveals the delete overlay. -/
def cDelClickable : ClickableElement :=
  { selector := "#del-btn"
    type := .button
    text := "Delete item button"
    description := "Delete item button" }

/-- An environment with one clickable whose click keeps the address
and reveals the delete-confirmation overlay. -/
def cEnvModal : Env := fun _ =>
  { tabular := { containers := .ok [], dataCollections := .ok [] }
    form := cEmptyFormOracle
    clickables := .ok [⟨"#del-btn", "Delete item button"⟩]
    outcome := fun _ =>
      .stayed (.ok [⟨"#modal", "Delete confirmation modal"⟩]) cDeleteFormOracle }

/-- A loaded dispatcher configuration with one registered tool. -/
def cToolConfig : ToolConfig :=
  { name := "list_emails", description := "List the emails in the inbox" }

/-- See `cToolConfig`. -/
def cServerConfig : Option ServerConfig := some { tools := [cToolConfig] }

/-! # Theorems -/

/-- C2: for every form type in the closed vocabulary,
`determineFormOperation` equals the fixed table of the specification:
search and filter map to READ; delete, remove and unsubscribe map to
DELETE; login, registration, contact, feedback, newsletter and checkout
map to CREATE; settings maps to UPDATE; every other form type
(including `form` and `other`) maps to CREATE. -/
theorem determineFormOperation_matches_spec :
    ∀ formType : FormType, determineFormOperation formType = crudKindSpec formType := by
  intro formType
  cases formType <;> rfl

/-- C1: whenever the relevance oracle throws or returns an index
outside `[0, K)` for a corpus of `K` loaded page actions, the
dispatcher of a registered tool selects no record, executes the default
page action (operation UNSPECIFIED, selector `body`, empty path), and
resolves with the success-shaped result rather than throwing. -/
theorem universalHandler_oracle_fallback
    (loadedConfig : Option ServerConfig) (pageActions : List PageAction)
    (name : String) (oracle : Except Unit Int) (browser : BrowserOutcome)
    (toolConfig : ToolConfig)
    (htool : findToolConfig loadedConfig name = some toolConfig)
    (horacle : oracle = Except.error () ∨
      ∃ i : Int, oracle = Except.ok i ∧ (i < 0 ∨ (pageActions.length : Int) ≤ i)) :
    universalHandler loadedConfig pageActions name oracle browser =
      HandlerResult.ok none (runBrowser browser (defaultPageAction toolConfig)) := by
  rcases horacle with h | ⟨i, h, hrange⟩ <;> subst h
  · simp [universalHandler, htool, executePageAction]
  · have hcond : (decide (i < 0) || decide ((pageActions.length : Int) ≤ i)) = true := by
      rcases hrange with h1 | h1 <;> simp [h1]
    simp [universalHandler, htool, executePageAction, hcond]

/-- Witness for C1 at a concrete registered tool and an out-of-range
oracle reply. -/
theorem universalHandler_oracle_fallback_witness :
    findToolConfig cServerConfig "list_emails" = some cToolConfig ∧
    universalHandler cServerConfig [] "list_emails" (Except.ok 5)
        (BrowserOutcome.finished "done") =
      HandlerResult.ok none
        (runBrowser (BrowserOutcome.finished "done") (defaultPageAction cToolConfig)) :=
  ⟨by decide,
   universalHandler_oracle_fallback cServerConfig [] "list_emails" (Except.ok 5)
     (BrowserOutcome.finished "done") cToolConfig (by decide)
     (Or.inr ⟨5, rfl, Or.inr (by decide)⟩)⟩

/-- C5 counterexample: hashing is not collision-free over distinct Step
sequences: two distinct one-Step paths whose selectors differ only in
letter case receive the same digest, because `page_hash` lower-cases
the serialized string before hashing. -/
theorem page_hash_collision_cex :
    pathCaseA ≠ pathCaseB ∧
    page_hash (serializePath pathCaseA) = page_hash (serializePath pathCaseB) :=
  ⟨by decide, congrArg md5Hex (by decide)⟩

/-- C5 (amended): hashing the serialization of a path is deterministic
(the digest is a pure function of the serialized string), and any two
paths whose serializations agree after lower-casing receive equal
digests — so collision-freedom can hold at best up to letter case of
the serialized Step sequences. -/
theorem page_hash_stable_and_case_folding (p q : List PathObject)
    (h : jsToLower (serializePath p) = jsToLower (serializePath q)) :
    page_hash (serializePath p) = page_hash (serializePath p) ∧
    page_hash (serializePath p) = page_hash (serializePath q) :=
  ⟨rfl, congrArg md5Hex h⟩

/-- Witness for the amended C5 at the concrete case-differing paths. -/
theorem page_hash_stable_and_case_folding_witness :
    jsToLower (serializePath pathCaseA) = jsToLower (serializePath pathCaseB) ∧
    page_hash (serializePath pathCaseA) = page_hash (serializePath pathCaseB) :=
  ⟨by decide,
   (page_hash_stable_and_case_folding pathCaseA pathCaseB (by decide)).2⟩

/-- C9 counterexample: when the input-group `observe` throws after the
primary form pass already succeeded, `extractFormData` returns the
accumulated (non-empty) form list, not zero entities. -/
theorem extractFormData_partial_on_late_throw_cex :
    cFormOracleAbort.inputGroups = Except.error () ∧
    extractFormData [] cFormOracleAbort = [cLoginFormData] :=
  ⟨rfl, by decide⟩

/-- C9 (amended): a throwing oracle call inside an extractor is caught
and the extractor returns the entities accumulated before the failing
call — in particular zero entities when the extractor's first oracle
query throws — and the traversal continues. -/
theorem extractor_failure_yields_accumulated (ex : List String)
    (o : FormOracle) (t : TabularOracle) :
    (o.modalElements = Except.error () → extractFormData ex o = []) ∧
    (t.containers = Except.error () → extractTabularData t = []) := by
  constructor
  · intro h
    unfold extractFormData
    rw [h]
  · intro h
    unfold extractTabularData
    rw [h]

/-- Witness for the amended C9 at concrete first-call-throwing
oracles. -/
theorem extractor_failure_yields_accumulated_witness :
    (cFormOracleDead.modalElements = Except.error () ∧
      extractFormData [] cFormOracleDead = []) ∧
    (cTabOracleDead.containers = Except.error () ∧
      extractTabularData cTabOracleDead = []) :=
  ⟨⟨rfl, (extractor_failure_yields_accumulated [] cFormOracleDead cTabOracleDead).1 rfl⟩,
   ⟨rfl, (extractor_failure_yields_accumulated [] cFormOracleDead cTabOracleDead).2 rfl⟩⟩

/-- C8 counterexample: the record synthesized from a form whose input
has no label hint carries the input's free-text description as its
label — the description value is not dropped from the persisted
record. -/
theorem record_retains_description_cex :
    cLoginFormData.inputs.map (fun i => i.label) = [none] ∧
    ((mkFormRecord [] cLoginFormData).inputs.getD []).map (fun i => i.label) =
      cLoginFormData.inputs.map (fun i => i.description) := by
  decide

/-! ## List helpers -/

/-- `List.contains` is false exactly on non-members. -/
theorem contains_eq_false_of_not_mem {l : List String} {a : String}
    (h : a ∉ l) : l.contains a = false := by
  cases hc : l.contains a
  · rfl
  · exact absurd (List.elem_iff.mp hc) h

/-- Non-membership follows from a false `List.contains`. -/
theorem not_mem_of_contains_eq_false {l : List String} {a : String}
    (h : l.contains a = false) : a ∉ l := by
  intro hm
  have h2 : l.contains a = true := List.elem_iff.mpr hm
  rw [h2] at h
  exact Bool.noConfusion h

/-- Appended singletons are injective. -/
theorem append_singleton_inj {α : Type} {p q : List α} {a b : α}
    (h : p ++ [a] = q ++ [b]) : p = q ∧ a = b := by
  have hlen : p.length = q.length := by
    have := congrArg List.length h
    simpa using this
  have := List.append_inj h hlen
  exact ⟨this.1, by simpa using this.2⟩

/-! ## buildInputs lemmas -/

/-- The used set after `buildInputs` holds exactly the old used set and
the selectors of the inputs just claimed. -/
theorem buildInputs_used_iff (mk : Obs → FormInput)
    (hmk : ∀ ob, (mk ob).selector = ob.selector) :
    ∀ (l : List Obs) (u : List String) (s : String),
      s ∈ (buildInputs mk l u).2 ↔
        s ∈ u ∨ s ∈ (buildInputs mk l u).1.map (fun i => i.selector) := by
  intro l
  induction l with
  | nil => intro u s; simp [buildInputs]
  | cons i rest ih =>
    intro u s
    by_cases hc : i.selector ∈ u
    · rw [buildInputs, if_pos (List.elem_iff.mpr hc)]
      exact ih u s
    · rw [buildInputs, if_neg (by simpa using hc)]
      simp only [List.map_cons, hmk i, List.mem_cons]
      rw [ih (i.selector :: u) s]
      simp only [List.mem_cons]
      tauto

/-- The inputs claimed by `buildInputs` have pairwise-distinct
selectors, none of which was already used. -/
theorem buildInputs_sel_nodup (mk : Obs → FormInput)
    (hmk : ∀ ob, (mk ob).selector = ob.selector) :
    ∀ (l : List Obs) (u : List String),
      ((buildInputs mk l u).1.map (fun i => i.selector)).Nodup ∧
      ∀ s ∈ (buildInputs mk l u).1.map (fun i => i.selector), s ∉ u := by
  intro l
  induction l with
  | nil => intro u; simp [buildInputs]
  | cons i rest ih =>
    intro u
    by_cases hc : i.selector ∈ u
    · rw [buildInputs, if_pos (List.elem_iff.mpr hc)]
      exact ih u
    · rw [buildInputs, if_neg (by simpa using hc)]
      simp only [List.map_cons, hmk i, List.nodup_cons, List.mem_cons]
      obtain ⟨hnd, hdisj⟩ := ih (i.selector :: u)
      refine ⟨⟨fun hmem => ?_, hnd⟩, ?_⟩
      · exact hdisj _ hmem (by simp)
      · intro s hs
        rcases hs with hs | hs
        · subst hs; exact hc
        · intro hu; exact hdisj s hs (by simp [hu])

/-- An unclaimed reported selector is claimed by `buildInputs`. -/
theorem buildInputs_mem (mk : Obs → FormInput)
    (hmk : ∀ ob, (mk ob).selector = ob.selector) :
    ∀ (l : List Obs) (u : List String) (s : String),
      s ∈ l.map (fun ob => ob.selector) → s ∉ u →
      s ∈ (buildInputs mk l u).1.map (fun i => i.selector) := by
  intro l
  induction l with
  | nil => intro u s h; simp at h
  | cons i rest ih =>
    intro u s hs hu
    by_cases hc : i.selector ∈ u
    · rw [buildInputs, if_pos (List.elem_iff.mpr hc)]
      rcases List.mem_cons.mp hs with hs | hs
      · exact absurd (hs ▸ hc) hu
      · exact ih u s hs hu
    · rw [buildInputs, if_neg (by simpa using hc)]
      simp only [List.map_cons, hmk i, List.mem_cons]
      rcases List.mem_cons.mp hs with hs | hs
      · exact Or.inl hs
      · by_cases hsi : s = i.selector
        · exact Or.inl hsi
        · exact Or.inr (ih (i.selector :: u) s hs (by simp [hu, hsi]))

/-- An already-used selector is never claimed by `buildInputs`. -/
theorem buildInputs_not_mem (mk : Obs → FormInput)
    (hmk : ∀ ob, (mk ob).selector = ob.selector)
    (l : List Obs) (u : List String) (s : String) (h : s ∈ u) :
    s ∉ (buildInputs mk l u).1.map (fun i => i.selector) :=
  fun hmem => (buildInputs_sel_nodup mk hmk l u).2 s hmem h

/-! ## genPass lemmas -/

/-- `inpFlat` distributes over append. -/
theorem inpFlat_append (l₁ l₂ : List FormData) :
    inpFlat (l₁ ++ l₂) = inpFlat l₁ ++ inpFlat l₂ := by
  simp [inpFlat]

/-- Every form pass preserves the pass invariant. -/
theorem genPass_inv (q : String → Except Unit (List Obs)) (g : Obs → Bool)
    (mk : Obs → FormInput) (mkF : Obs → List FormInput → FormData)
    (hmk : ∀ ob, (mk ob).selector = ob.selector)
    (hFsel : ∀ c ins, (mkF c ins).selector = c.selector)
    (hFinp : ∀ c ins, (mkF c ins).inputs = ins)
    (hFop : ∀ c ins, (mkF c ins).operation = determineFormOperation (mkF c ins).type) :
    ∀ (l : List Obs) (st : PassState), PassInv st → PassInv (genPass q g mk mkF l st).1 := by
  intro l
  induction l with
  | nil => intro st h; exact h
  | cons c rest ih =>
    intro st hst
    obtain ⟨hnd, hseen, hind, hused, hop⟩ := hst
    by_cases h1 : c.selector ∈ st.seen
    · rw [genPass, if_pos (List.elem_iff.mpr h1)]
      exact ih st ⟨hnd, hseen, hind, hused, hop⟩
    · rw [genPass, if_neg (by simpa using h1)]
      cases h2 : g c
      · rw [if_neg (by simp)]
        exact ih st ⟨hnd, hseen, hind, hused, hop⟩
      · rw [if_pos rfl]
        cases hq : q c.selector with
        | error e => exact ⟨hnd, hseen, hind, hused, hop⟩
        | ok obs =>
          dsimp only
          by_cases h3 : (buildInputs mk obs st.used).1.length > 0
          · rw [if_pos h3]
            apply ih
            refine ⟨?_, ?_, ?_, ?_, ?_⟩
            · rw [List.map_append, List.nodup_append]
              refine ⟨hnd, by simp, ?_⟩
              intro a ha hb
              simp only [List.map_cons, List.map_nil, List.mem_singleton, hFsel] at hb
              rcases List.mem_map.mp ha with ⟨f, hf, hfa⟩
              exact h1 (hb ▸ hfa ▸ hseen f hf)
            · intro f hf
              rcases List.mem_append.mp hf with hf | hf
              · exact List.mem_cons_of_mem _ (hseen f hf)
              · simp only [List.mem_singleton] at hf
                subst hf
                simp [hFsel]
            · rw [inpFlat_append, List.nodup_append]
              refine ⟨hind, ?_, ?_⟩
              · simpa [inpFlat, hFinp] using
                  (buildInputs_sel_nodup mk hmk obs st.used).1
              · intro a ha hb
                simp only [inpFlat, List.flatMap_cons, List.flatMap_nil,
                  List.append_nil, hFinp] at hb
                exact buildInputs_not_mem mk hmk obs st.used a
                  ((hused a).mpr ha) hb
            · intro s
              rw [buildInputs_used_iff mk hmk obs st.used s, inpFlat_append]
              simp only [inpFlat, List.flatMap_cons, List.flatMap_nil,
                List.append_nil, hFinp, List.mem_append]
              rw [hused s]
              simp [inpFlat]
            · intro f hf
              rcases List.mem_append.mp hf with hf | hf
              · exact hop f hf
              · simp only [List.mem_singleton] at hf
                subst hf
                exact hFop c _
          · rw [if_neg h3]
            apply ih
            have hre : (buildInputs mk obs st.used).1 = [] :=
              List.length_eq_zero.mp (Nat.eq_zero_of_not_pos h3)
            refine ⟨hnd, hseen, hind, ?_, hop⟩
            intro s
            rw [buildInputs_used_iff mk hmk obs st.used s, hre]
            simp [hused s]

/-- Every form pass only appends to the accumulated form list. -/
theorem genPass_fd_prefix (q : String → Except Unit (List Obs)) (g : Obs → Bool)
    (mk : Obs → FormInput) (mkF : Obs → List FormInput → FormData) :
    ∀ (l : List Obs) (st : PassState),
      st.fd <+: (genPass q g mk mkF l st).1.fd := by
  intro l
  induction l with
  | nil => intro st; exact List.prefix_refl _
  | cons c rest ih =>
    intro st
    by_cases h1 : c.selector ∈ st.seen
    · rw [genPass, if_pos (List.elem_iff.mpr h1)]
      exact ih st
    · rw [genPass, if_neg (by simpa using h1)]
      cases h2 : g c
      · rw [if_neg (by simp)]
        exact ih st
      · rw [if_pos rfl]
        cases hq : q c.selector with
        | error e => exact List.prefix_refl _
        | ok obs =>
          dsimp only
          by_cases h3 : (buildInputs mk obs st.used).1.length > 0
          · rw [if_pos h3]
            exact List.IsPrefix.trans (List.prefix_append st.fd
              [mkF c (buildInputs mk obs st.used).1])
              (ih { fd := st.fd ++ [mkF c (buildInputs mk obs st.used).1]
                    seen := c.selector :: st.seen
                    used := (buildInputs mk obs st.used).2 })
          · rw [if_neg h3]
            exact ih { fd := st.fd, seen := st.seen, used := (buildInputs mk obs st.used).2 }

/-- Once an input selector is claimed, every later form pass keeps it
claimed and attributes it to no further form. -/
theorem genPass_onlyClaimed (q : String → Except Unit (List Obs)) (g : Obs → Bool)
    (mk : Obs → FormInput) (mkF : Obs → List FormInput → FormData)
    (hmk : ∀ ob, (mk ob).selector = ob.selector)
    (hFinp : ∀ c ins, (mkF c ins).inputs = ins)
    (s sel : String) :
    ∀ (l : List Obs) (st : PassState),
      s ∈ st.used → onlyClaimedBy s sel st.fd →
      s ∈ (genPass q g mk mkF l st).1.used ∧
        onlyClaimedBy s sel (genPass q g mk mkF l st).1.fd := by
  intro l
  induction l with
  | nil => intro st h1 h2; exact ⟨h1, h2⟩
  | cons c rest ih =>
    intro st hu ho
    by_cases h1 : c.selector ∈ st.seen
    · rw [genPass, if_pos (List.elem_iff.mpr h1)]
      exact ih st hu ho
    · rw [genPass, if_neg (by simpa using h1)]
      cases h2 : g c
      · rw [if_neg (by simp)]
        exact ih st hu ho
      · rw [if_pos rfl]
        cases hq : q c.selector with
        | error e => exact ⟨hu, ho⟩
        | ok obs =>
          dsimp only
          have hu' : s ∈ (buildInputs mk obs st.used).2 :=
            (buildInputs_used_iff mk hmk obs st.used s).mpr (Or.inl hu)
          by_cases h3 : (buildInputs mk obs st.used).1.length > 0
          · rw [if_pos h3]
            apply ih
            · exact hu'
            · intro f hf hs
              rcases List.mem_append.mp hf with hf | hf
              · exact ho f hf hs
              · simp only [List.mem_singleton] at hf
                subst hf
                rw [hFinp] at hs
                exact absurd hs (buildInputs_not_mem mk hmk obs st.used s hu)
          · rw [if_neg h3]
            exact ih _ hu' ho

/-! ## extractFormData invariants -/

/-- The initial pass state satisfies the invariant. -/
theorem passInv_init (ex : List String) : PassInv ⟨[], ex, []⟩ := by
  refine ⟨by simp, by simp, by simp [inpFlat], ?_, by simp⟩
  intro s
  simp [inpFlat]

/-- `extractFormData` returns the form list of a pass state satisfying
the pass invariant, whichever pass completed or aborted last. -/
theorem extractFormData_state (ex : List String) (o : FormOracle) :
    ∃ st : PassState, extractFormData ex o = st.fd ∧ PassInv st := by
  unfold extractFormData
  dsimp only
  cases hm : o.modalElements with
  | error e => exact ⟨⟨[], [], []⟩, rfl, passInv_init []⟩
  | ok ms =>
    dsimp only
    cases hf : o.forms (decide (ms.length > 0)) with
    | error e => exact ⟨⟨[], [], []⟩, rfl, passInv_init []⟩
    | ok fl =>
      have h1 : PassInv (primaryPass o fl ⟨[], ex, []⟩).1 :=
        genPass_inv o.formInputs (fun _ => true) mkPrimaryInput mkPrimaryForm
          (fun _ => rfl) (fun _ _ => rfl) (fun _ _ => rfl) (fun _ _ => rfl)
          fl ⟨[], ex, []⟩ (passInv_init ex)
      dsimp only
      cases hb1 : (primaryPass o fl ⟨[], ex, []⟩).2
      · rw [if_pos (by simp [hb1])]
        exact ⟨_, rfl, h1⟩
      · rw [if_neg (by simp [hb1])]
        cases hg : o.inputGroups with
        | error e => exact ⟨_, rfl, h1⟩
        | ok gl =>
          have h2 : PassInv (groupPass o gl (primaryPass o fl ⟨[], ex, []⟩).1).1 :=
            genPass_inv o.groupInputs groupGuard mkGroupInput mkGroupForm
              (fun _ => rfl) (fun _ _ => rfl) (fun _ _ => rfl) (fun _ _ => rfl)
              gl _ h1
          dsimp only
          cases hb2 : (groupPass o gl (primaryPass o fl ⟨[], ex, []⟩).1).2
          · rw [if_pos (by simp [hb2])]
            exact ⟨_, rfl, h2⟩
          · rw [if_neg (by simp [hb2])]
            cases hs : o.searchElements with
            | error e => exact ⟨_, rfl, h2⟩
            | ok sl =>
              exact ⟨_, rfl,
                genPass_inv o.searchInputs searchGuard mkSearchInput mkSearchForm
                  (fun _ => rfl) (fun _ _ => rfl) (fun _ _ => rfl) (fun _ _ => rfl)
                  sl _ h2⟩

/-- The form entities of one extraction call have pairwise-distinct
container selectors. -/
theorem extractFormData_sel_nodup (ex : List String) (o : FormOracle) :
    ((extractFormData ex o).map (fun f => f.selector)).Nodup := by
  obtain ⟨st, he, hinv⟩ := extractFormData_state ex o
  rw [he]
  exact hinv.1

/-- The input selectors of one extraction call are globally
pairwise-distinct across all synthesized form entities. -/
theorem extractFormData_inp_nodup (ex : List String) (o : FormOracle) :
    (inpFlat (extractFormData ex o)).Nodup := by
  obtain ⟨st, he, hinv⟩ := extractFormData_state ex o
  rw [he]
  exact hinv.2.2.1

/-- Every synthesized form entity carries the CRUD kind determined by
its form type. -/
theorem extractFormData_op_consistent (ex : List String) (o : FormOracle) :
    ∀ f ∈ extractFormData ex o, f.operation = determineFormOperation f.type := by
  obtain ⟨st, he, hinv⟩ := extractFormData_state ex o
  rw [he]
  exact hinv.2.2.2.2

/-- After the primary pass, the remaining extraction only appends
forms, and a claimed input selector stays attributed to its claiming
container. -/
theorem extractFormData_from_primary (ex : List String) (o : FormOracle)
    (ms fl : List Obs)
    (hm : o.modalElements = Except.ok ms)
    (hf : o.forms (decide (ms.length > 0)) = Except.ok fl) :
    ∃ st : PassState,
      extractFormData ex o = st.fd ∧
      (primaryPass o fl ⟨[], ex, []⟩).1.fd <+: st.fd ∧
      ∀ s sel : String, s ∈ (primaryPass o fl ⟨[], ex, []⟩).1.used →
        onlyClaimedBy s sel (primaryPass o fl ⟨[], ex, []⟩).1.fd →
        onlyClaimedBy s sel st.fd := by
  unfold extractFormData
  rw [hm]
  dsimp only
  rw [hf]
  dsimp only
  cases hb1 : (primaryPass o fl ⟨[], ex, []⟩).2
  · rw [if_pos (by simp [hb1])]
    exact ⟨_, rfl, List.prefix_refl _, fun s sel _ h => h⟩
  · rw [if_neg (by simp [hb1])]
    cases hg : o.inputGroups with
    | error e => exact ⟨_, rfl, List.prefix_refl _, fun s sel _ h => h⟩
    | ok gl =>
      have hpre2 := genPass_fd_prefix o.groupInputs groupGuard mkGroupInput
        mkGroupForm gl (primaryPass o fl ⟨[], ex, []⟩).1
      have honly2 := genPass_onlyClaimed o.groupInputs groupGuard mkGroupInput
        mkGroupForm (fun _ => rfl) (fun _ _ => rfl)
      dsimp only
      cases hb2 : (groupPass o gl (primaryPass o fl ⟨[], ex, []⟩).1).2
      · rw [if_pos (by simp [hb2])]
        exact ⟨_, rfl, hpre2, fun s sel hu ho =>
          (honly2 s sel gl _ hu ho).2⟩
      · rw [if_neg (by simp [hb2])]
        cases hs : o.searchElements with
        | error e =>
          exact ⟨_, rfl, hpre2, fun s sel hu ho =>
            (honly2 s sel gl _ hu ho).2⟩
        | ok sl =>
          have hpre3 := genPass_fd_prefix o.searchInputs searchGuard mkSearchInput
            mkSearchForm sl (groupPass o gl (primaryPass o fl ⟨[], ex, []⟩).1).1
          have honly3 := genPass_onlyClaimed o.searchInputs searchGuard mkSearchInput
            mkSearchForm (fun _ => rfl) (fun _ _ => rfl)
          refine ⟨_, rfl, List.IsPrefix.trans hpre2 hpre3, fun s sel hu ho => ?_⟩
          have h2 := honly2 s sel gl _ hu ho
          exact (honly3 s sel sl _ h2.1 h2.2).2

/-- C8 (amended): every form entity, page-level or modal, becomes an
operation record whose crudKind is the form's precomputed operation and
whose inputs keep exactly the type, required flag, placeholder and
options of each input entity together with a label that falls back to
the input's free-text description when no label hint is present; the
input selector is dropped, and for modal forms the record path is the
current path extended by the non-navigating trigger Step. -/
theorem form_record_synthesis (env : Env) (p : List PathObject) (F : FormData) :
    (F ∈ iterFD env p → mkFormRecord p F ∈ iterRecs env p) ∧
    (∀ mo ∈ (iterNM env p).2, F ∈ mo.forms →
      mkModalRecord p mo.trigger.selector F ∈ iterRecs env p) ∧
    (mkFormRecord p F).operation = F.operation ∧
    (mkFormRecord p F).inputs = some (F.inputs.map recInputOf) ∧
    (mkFormRecord p F).path = p ∧
    (∀ t, (mkModalRecord p t F).operation = F.operation ∧
      (mkModalRecord p t F).inputs = some (F.inputs.map recInputOf) ∧
      (mkModalRecord p t F).path =
        p ++ [{ intra_page_path := t, is_new_link := false }]) ∧
    (∀ i, recInputOf i =
      { type := i.type, required := i.required, placeholder := i.placeholder,
        label := jsOr i.label i.description, options := i.options }) := by
  refine ⟨?_, ?_, rfl, rfl, rfl, fun t => ⟨rfl, rfl, rfl⟩, fun i => rfl⟩
  · intro hF
    unfold iterRecs
    exact List.mem_append.mpr (Or.inl (List.mem_append.mpr
      (Or.inr (List.mem_map_of_mem _ hF))))
  · intro mo hmo hF
    unfold iterRecs
    exact List.mem_append.mpr (Or.inr
      (List.mem_flatMap.mpr ⟨mo, hmo, List.mem_map_of_mem _ hF⟩))

/-- Witness for the amended C8 at a concrete page form and a concrete
modal form. -/
theorem form_record_synthesis_witness :
    cLoginFormData ∈ iterFD cEnvDup [] ∧
    mkFormRecord [] cLoginFormData ∈ iterRecs cEnvDup [] ∧
    (mkFormRecord [] cLoginFormData).operation = cLoginFormData.operation ∧
    mkModalRecord [] "#del-btn" cDeleteForm ∈ iterRecs cEnvModal [] :=
  ⟨by decide,
   (form_record_synthesis cEnvDup [] cLoginFormData).1 (by decide),
   (form_record_synthesis cEnvDup [] cLoginFormData).2.2.1,
   (form_record_synthesis cEnvModal [] cDeleteForm).2.1
     ⟨cDelClickable, [⟨"#modal", "Delete confirmation modal"⟩], [cDeleteForm]⟩
     (by decide) (by decide)⟩

/-! ## extractTabularData and extractClickableElements dedup -/

/-- Fold invariant of the tabular passes: accumulated selectors are
distinct and recorded in the seen set. -/
def TabInv (acc : List TableData × List String) : Prop :=
  (acc.1.map (fun t => t.selector)).Nodup ∧ ∀ t ∈ acc.1, t.selector ∈ acc.2

/-- `tabStep1` preserves the tabular fold invariant. -/
theorem tabStep1_inv (acc : List TableData × List String) (c : Obs)
    (h : TabInv acc) : TabInv (tabStep1 acc c) := by
  obtain ⟨hnd, hseen⟩ := h
  unfold tabStep1
  dsimp only
  by_cases hg : tabularGuard1 (jsToLower c.description) = true
  · rw [if_pos hg]
    cases hc : acc.2.contains c.selector
    · rw [if_pos (by simp [hc])]
      constructor
      · rw [List.map_append, List.nodup_append]
        refine ⟨hnd, by simp, ?_⟩
        intro a ha hb
        simp only [List.map_cons, List.map_nil, List.mem_singleton] at hb
        rcases List.mem_map.mp ha with ⟨t, ht, hta⟩
        exact not_mem_of_contains_eq_false hc (hb ▸ hta ▸ hseen t ht)
      · intro t ht
        rcases List.mem_append.mp ht with ht | ht
        · exact List.mem_cons_of_mem _ (hseen t ht)
        · simp only [List.mem_singleton] at ht
          subst ht
          simp
    · rw [if_neg (by simp [hc])]
      exact ⟨hnd, hseen⟩
  · rw [if_neg hg]
    exact ⟨hnd, hseen⟩

/-- `tabStep2` preserves the tabular fold invariant. -/
theorem tabStep2_inv (acc : List TableData × List String) (c : Obs)
    (h : TabInv acc) : TabInv (tabStep2 acc c) := by
  obtain ⟨hnd, hseen⟩ := h
  unfold tabStep2
  dsimp only
  cases hc : acc.2.contains c.selector
  · rw [if_pos (by simp [hc])]
    by_cases hg : tabularGuard2 (jsToLower c.description) = true
    · rw [if_pos hg]
      constructor
      · rw [List.map_append, List.nodup_append]
        refine ⟨hnd, by simp, ?_⟩
        intro a ha hb
        simp only [List.map_cons, List.map_nil, List.mem_singleton] at hb
        rcases List.mem_map.mp ha with ⟨t, ht, hta⟩
        exact not_mem_of_contains_eq_false hc (hb ▸ hta ▸ hseen t ht)
      · intro t ht
        rcases List.mem_append.mp ht with ht | ht
        · exact List.mem_cons_of_mem _ (hseen t ht)
        · simp only [List.mem_singleton] at ht
          subst ht
          simp
    · rw [if_neg hg]
      exact ⟨hnd, hseen⟩
  · rw [if_neg (by simp [hc])]
    exact ⟨hnd, hseen⟩

/-- Folding a tabular step over any list preserves the invariant. -/
theorem foldl_tab_inv (step : List TableData × List String → Obs →
      List TableData × List String)
    (hstep : ∀ acc c, TabInv acc → TabInv (step acc c)) :
    ∀ (l : List Obs) (acc : List TableData × List String),
      TabInv acc → TabInv (l.foldl step acc) := by
  intro l
  induction l with
  | nil => intro acc h; exact h
  | cons c rest ih => intro acc h; exact ih _ (hstep acc c h)

/-- The collection entities of one extraction call have
pairwise-distinct selectors. -/
theorem extractTabularData_sel_nodup (o : TabularOracle) :
    ((extractTabularData o).map (fun t => t.selector)).Nodup := by
  unfold extractTabularData
  cases o.containers with
  | error e => simp
  | ok containers =>
    have h1 : TabInv (containers.foldl tabStep1 ([], [])) :=
      foldl_tab_inv tabStep1 tabStep1_inv containers ([], []) ⟨by simp, by simp⟩
    dsimp only
    cases o.dataCollections with
    | error e => exact h1.1
    | ok dataCollections =>
      exact (foldl_tab_inv tabStep2 tabStep2_inv dataCollections _ h1).1

/-- Fold invariant of the clickable loop. -/
def ClickInv (acc : List ClickableElement × List String) : Prop :=
  (acc.1.map (fun e => e.selector)).Nodup ∧ ∀ e ∈ acc.1, e.selector ∈ acc.2

/-- `clickStep` preserves the clickable fold invariant. -/
theorem clickStep_inv (fis : List String)
    (acc : List ClickableElement × List String) (c : Obs)
    (h : ClickInv acc) : ClickInv (clickStep fis acc c) := by
  obtain ⟨hnd, hseen⟩ := h
  unfold clickStep
  cases hc : acc.2.contains c.selector
  · rw [if_neg (by simp [hc])]
    by_cases hk : clickKeep fis c = true
    · rw [if_pos hk]
      constructor
      · rw [List.map_append, List.nodup_append]
        refine ⟨hnd, by simp, ?_⟩
        intro a ha hb
        simp only [List.map_cons, List.map_nil, List.mem_singleton,
          clickElem] at hb
        rcases List.mem_map.mp ha with ⟨t, ht, hta⟩
        exact not_mem_of_contains_eq_false hc (hb ▸ hta ▸ hseen t ht)
      · intro t ht
        rcases List.mem_append.mp ht with ht | ht
        · exact List.mem_cons_of_mem _ (hseen t ht)
        · simp only [List.mem_singleton] at ht
          subst ht
          simp [clickElem]
    · rw [if_neg hk]
      exact ⟨hnd, hseen⟩
  · rw [if_pos (by simp [hc])]
    exact ⟨hnd, hseen⟩

/-- Folding the clickable step preserves the invariant. -/
theorem foldl_click_inv (fis : List String) :
    ∀ (l : List Obs) (acc : List ClickableElement × List String),
      ClickInv acc → ClickInv (l.foldl (clickStep fis) acc) := by
  intro l
  induction l with
  | nil => intro acc h; exact h
  | cons c rest ih => intro acc h; exact ih _ (clickStep_inv fis acc c h)

/-- The clickable elements of one extraction call have
pairwise-distinct selectors. -/
theorem extractClickableElements_sel_nodup (o : Except Unit (List Obs))
    (fis : List String) :
    ((extractClickableElements o fis).map (fun e => e.selector)).Nodup := by
  unfold extractClickableElements
  cases o with
  | error e => simp
  | ok clickables =>
    exact (foldl_click_inv fis clickables ([], []) ⟨by simp, by simp⟩).1

/-! ## testNavigationAndModals lemmas -/

/-- Navigation elements are exactly input elements whose click changed
the address. -/
theorem testNav_nav_mem (outcome : String → ClickOutcome) (ex : List String) :
    ∀ (l : List ClickableElement),
      ∀ e ∈ (testNavigationAndModals outcome ex l).1,
        e ∈ l ∧ outcome e.selector = ClickOutcome.navigated := by
  intro l
  induction l with
  | nil => intro e he; simp [testNavigationAndModals] at he
  | cons c rest ih =>
    intro e he
    rw [testNavigationAndModals] at he
    cases ho : outcome c.selector with
    | errOut =>
      simp only [ho] at he
      exact ⟨List.mem_cons_of_mem _ (ih e he).1, (ih e he).2⟩
    | navigated =>
      simp only [ho] at he
      rcases List.mem_cons.mp he with he | he
      · subst he; exact ⟨List.mem_cons_self _ _, ho⟩
      · exact ⟨List.mem_cons_of_mem _ (ih e he).1, (ih e he).2⟩
    | stayed mob fo =>
      simp only [ho] at he
      cases mob with
      | error err =>
        exact ⟨List.mem_cons_of_mem _ (ih e he).1, (ih e he).2⟩
      | ok mc =>
        dsimp only at he
        by_cases hl : mc.length > 0
        · rw [if_pos hl] at he
          exact ⟨List.mem_cons_of_mem _ (ih e he).1, (ih e he).2⟩
        · rw [if_neg hl] at he
          exact ⟨List.mem_cons_of_mem _ (ih e he).1, (ih e he).2⟩

/-- Every recorded modal operation comes from an input element whose
click kept the address and revealed a non-empty overlay, and its forms
are the modal-scoped extraction. -/
theorem testNav_modal_mem (outcome : String → ClickOutcome) (ex : List String) :
    ∀ (l : List ClickableElement),
      ∀ mo ∈ (testNavigationAndModals outcome ex l).2,
        ∃ e ∈ l, ∃ mc fo,
          outcome e.selector = ClickOutcome.stayed (Except.ok mc) fo ∧
          mc.length > 0 ∧
          mo = { trigger := e, modalContent := mc
                 forms := extractFormData ex fo } := by
  intro l
  induction l with
  | nil => intro mo hmo; simp [testNavigationAndModals] at hmo
  | cons c rest ih =>
    intro mo hmo
    rw [testNavigationAndModals] at hmo
    cases ho : outcome c.selector with
    | errOut =>
      simp only [ho] at hmo
      obtain ⟨e, he, mc, fo', h⟩ := ih mo hmo
      exact ⟨e, List.mem_cons_of_mem _ he, mc, fo', h⟩
    | navigated =>
      simp only [ho] at hmo
      obtain ⟨e, he, mc, fo', h⟩ := ih mo hmo
      exact ⟨e, List.mem_cons_of_mem _ he, mc, fo', h⟩
    | stayed mob fo =>
      simp only [ho] at hmo
      cases mob with
      | error err =>
        obtain ⟨e, he, mc, fo', h⟩ := ih mo hmo
        exact ⟨e, List.mem_cons_of_mem _ he, mc, fo', h⟩
      | ok mc =>
        dsimp only at hmo
        by_cases hl : mc.length > 0
        · rw [if_pos hl] at hmo
          rcases List.mem_cons.mp hmo with hmo | hmo
          · exact ⟨c, List.mem_cons_self _ _, mc, fo, ho, hl, hmo⟩
          · obtain ⟨e, he, mc', fo', h⟩ := ih mo hmo
            exact ⟨e, List.mem_cons_of_mem _ he, mc', fo', h⟩
        · rw [if_neg hl] at hmo
          obtain ⟨e, he, mc', fo', h⟩ := ih mo hmo
          exact ⟨e, List.mem_cons_of_mem _ he, mc', fo', h⟩

/-- A clickable whose click keeps the address and reveals a non-empty
overlay does get a modal operation recorded. -/
theorem testNav_modal_exists (outcome : String → ClickOutcome) (ex : List String) :
    ∀ (l : List ClickableElement) (e : ClickableElement)
      (mc : List Obs) (fo : FormOracle),
      e ∈ l → outcome e.selector = ClickOutcome.stayed (Except.ok mc) fo →
      mc.length > 0 →
      ({ trigger := e, modalContent := mc
         forms := extractFormData ex fo } : ModalOp) ∈
        (testNavigationAndModals outcome ex l).2 := by
  intro l
  induction l with
  | nil => intro e mc fo he; simp at he
  | cons c rest ih =>
    intro e mc fo he ho hl
    rw [testNavigationAndModals]
    rcases List.mem_cons.mp he with he | he
    · subst he
      simp only [ho]
      rw [if_pos hl]
      exact List.mem_cons_self _ _
    · have hmem := ih e mc fo he ho hl
      cases ho' : outcome c.selector with
      | errOut => simpa using hmem
      | navigated => simpa using hmem
      | stayed mob fo' =>
        cases mob with
        | error err => simpa using hmem
        | ok mc' =>
          dsimp only
          by_cases hl' : mc'.length > 0
          · rw [if_pos hl']
            exact List.mem_cons_of_mem _ hmem
          · rw [if_neg hl']
            exact hmem

/-- With pairwise-distinct input selectors, recorded modal operations
have pairwise-distinct trigger selectors. -/
theorem testNav_trigger_nodup (outcome : String → ClickOutcome) (ex : List String) :
    ∀ (l : List ClickableElement),
      (l.map (fun e => e.selector)).Nodup →
      (((testNavigationAndModals outcome ex l).2).map
        (fun mo => mo.trigger.selector)).Nodup := by
  intro l
  induction l with
  | nil => intro h; simp [testNavigationAndModals]
  | cons c rest ih =>
    intro h
    rw [List.map_cons, List.nodup_cons] at h
    rw [testNavigationAndModals]
    cases ho : outcome c.selector with
    | errOut => simp only []; exact ih h.2
    | navigated => simp only []; exact ih h.2
    | stayed mob fo =>
      cases mob with
      | error err => simp only []; exact ih h.2
      | ok mc =>
        dsimp only
        by_cases hl : mc.length > 0
        · rw [if_pos hl]
          rw [List.map_cons, List.nodup_cons]
          refine ⟨?_, ih h.2⟩
          intro hmem
          rcases List.mem_map.mp hmem with ⟨mo, hmo, hsel⟩
          obtain ⟨e, he, mc', fo', _, _, hmoeq⟩ :=
            testNav_modal_mem outcome ex rest mo hmo
          apply h.1
          rw [← hsel, hmoeq]
          exact List.mem_map_of_mem _ he
        · rw [if_neg hl]
          exact ih h.2

/-! ## enqueueNav lemmas -/

/-- The seen set only grows during the enqueue loop. -/
theorem enqueueNav_seen_mono (p : List PathObject) (d : Nat) :
    ∀ (els : List ClickableElement) (acc : List String × List QueueItem),
      ∀ x ∈ acc.1, x ∈ (enqueueNav p d els acc).1 := by
  intro els
  induction els with
  | nil => intro acc x hx; exact hx
  | cons e rest ih =>
    intro acc x hx
    rw [enqueueNav]
    split
    · exact ih acc x hx
    · exact ih _ x (List.mem_cons_of_mem _ hx)

/-- Everything in the queue after the enqueue loop was already queued,
or is the current path extended by one navigation Step whose hash was
not in the incoming seen set. -/
theorem enqueueNav_mem (p : List PathObject) (d : Nat) :
    ∀ (els : List ClickableElement) (acc : List String × List QueueItem),
      ∀ it ∈ (enqueueNav p d els acc).2,
        it ∈ acc.2 ∨ ∃ e ∈ els,
          it = ⟨p ++ [{ intra_page_path := e.selector, is_new_link := true }], d + 1⟩ ∧
          page_hash (serializePath it.path) ∉ acc.1 := by
  intro els
  induction els with
  | nil => intro acc it hit; exact Or.inl hit
  | cons e rest ih =>
    intro acc it hit
    rw [enqueueNav] at hit
    by_cases hc : acc.1.contains
        (page_hash (serializePath
          (p ++ [{ intra_page_path := e.selector, is_new_link := true }]))) = true
    · rw [if_pos hc] at hit
      rcases ih acc it hit with h | ⟨e', he', heq, hh⟩
      · exact Or.inl h
      · exact Or.inr ⟨e', List.mem_cons_of_mem _ he', heq, hh⟩
    · rw [if_neg hc] at hit
      rcases ih _ it hit with h | ⟨e', he', heq, hh⟩
      · rcases List.mem_cons.mp h with h | h
        · subst h
          refine Or.inr ⟨e, List.mem_cons_self _ _, rfl, ?_⟩
          exact not_mem_of_contains_eq_false (Bool.eq_false_iff.mpr hc)
        · exact Or.inl h
      · refine Or.inr ⟨e', List.mem_cons_of_mem _ he', heq, fun hx => ?_⟩
        exact hh (List.mem_cons_of_mem _ hx)

/-- The enqueue loop keeps every queued path hashed into the seen set
and keeps queued paths pairwise distinct. -/
theorem enqueueNav_qok (p : List PathObject) (d : Nat) :
    ∀ (els : List ClickableElement) (acc : List String × List QueueItem),
      (∀ it ∈ acc.2, page_hash (serializePath it.path) ∈ acc.1) →
      acc.2.Pairwise (fun a b => a.path ≠ b.path) →
      (∀ it ∈ (enqueueNav p d els acc).2,
        page_hash (serializePath it.path) ∈ (enqueueNav p d els acc).1) ∧
      (enqueueNav p d els acc).2.Pairwise (fun a b => a.path ≠ b.path) := by
  intro els
  induction els with
  | nil => intro acc h1 h2; exact ⟨h1, h2⟩
  | cons e rest ih =>
    intro acc h1 h2
    rw [enqueueNav]
    by_cases hc : acc.1.contains
        (page_hash (serializePath
          (p ++ [{ intra_page_path := e.selector, is_new_link := true }]))) = true
    · rw [if_pos hc]
      exact ih acc h1 h2
    · rw [if_neg hc]
      apply ih
      · intro it hit
        rcases List.mem_cons.mp hit with hit | hit
        · subst hit
          exact List.mem_cons_self _ _
        · exact List.mem_cons_of_mem _ (h1 it hit)
      · rw [List.pairwise_cons]
        refine ⟨?_, h2⟩
        intro it hit heq
        apply not_mem_of_contains_eq_false (Bool.eq_false_iff.mpr hc)
        dsimp only at heq
        rw [heq]
        exact h1 it hit

/-! ## Modal record filtering -/

/-- A record's path never equals its own state path extended by a
Step. -/
theorem path_ne_extend (p : List PathObject) (s : PathObject) :
    p ≠ p ++ [s] := by
  intro h
  have := congrArg List.length h
  simp at this

/-- Among all modal records of one state, exactly the forms of the
modal operation triggered by selector `S` have the synthetic path
ending in the Step `⟨S, false⟩`. -/
theorem modal_records_filter (p : List PathObject) (S : String) :
    ∀ (mos : List ModalOp),
      (mos.map (fun mo => mo.trigger.selector)).Nodup →
      ∀ mo0 ∈ mos, mo0.trigger.selector = S →
      ((mos.flatMap (fun mo => mo.forms.map (mkModalRecord p mo.trigger.selector))).filter
        (fun r => r.path = p ++ [{ intra_page_path := S, is_new_link := false }])) =
        mo0.forms.map (mkModalRecord p S) := by
  intro mos
  induction mos with
  | nil => intro _ mo0 h; simp at h
  | cons mo rest ih =>
    intro hnd mo0 hmo0 hS
    rw [List.map_cons, List.nodup_cons] at hnd
    rw [List.flatMap_cons, List.filter_append]
    rcases List.mem_cons.mp hmo0 with hmo0 | hmo0
    · have hS' : mo.trigger.selector = S := by rw [← hmo0]; exact hS
      have hhead : (mo.forms.map (mkModalRecord p mo.trigger.selector)).filter
          (fun r => r.path = p ++ [{ intra_page_path := S, is_new_link := false }]) =
          mo.forms.map (mkModalRecord p S) := by
        rw [hS']
        apply List.filter_eq_self.mpr
        intro r hr
        rcases List.mem_map.mp hr with ⟨f, hf, hfr⟩
        subst hfr
        simp [mkModalRecord]
      have htail : ((rest.flatMap
          (fun mo => mo.forms.map (mkModalRecord p mo.trigger.selector))).filter
          (fun r => r.path = p ++ [{ intra_page_path := S, is_new_link := false }])) = [] := by
        apply List.filter_eq_nil_iff.mpr
        intro r hr
        rcases List.mem_flatMap.mp hr with ⟨mo', hmo', hrmo⟩
        rcases List.mem_map.mp hrmo with ⟨f, hf, hfr⟩
        subst hfr
        simp only [mkModalRecord, decide_eq_true_eq]
        intro heq
        have := (append_singleton_inj heq).2
        have hsel : mo'.trigger.selector = S := congrArg PathObject.intra_page_path this
        apply hnd.1
        rw [hS', ← hsel]
        exact List.mem_map_of_mem _ hmo'
      rw [hhead, htail, List.append_nil, hmo0]
    · have hheadne : mo.trigger.selector ≠ S := by
        intro h
        apply hnd.1
        have : mo0.trigger.selector ∈ rest.map (fun mo => mo.trigger.selector) :=
          List.mem_map_of_mem _ hmo0
        rw [hS] at this
        rw [h]
        exact this
      have hhead : (mo.forms.map (mkModalRecord p mo.trigger.selector)).filter
          (fun r => r.path = p ++ [{ intra_page_path := S, is_new_link := false }]) = [] := by
        apply List.filter_eq_nil_iff.mpr
        intro r hr
        rcases List.mem_map.mp hr with ⟨f, hf, hfr⟩
        subst hfr
        simp only [mkModalRecord, decide_eq_true_eq]
        intro heq
        exact hheadne (congrArg PathObject.intra_page_path (append_singleton_inj heq).2)
      rw [hhead, List.nil_append]
      exact ih hnd.2 mo0 hmo0 hS

/-- C7: for a clickable entity whose activation keeps the state's
address but reveals an overlay containing a delete-type form, the
iteration enqueues no frontier item for that entity, and appends
exactly one Operation Record with the synthetic path `current path +
⟨trigger, is_new_link := false⟩`, whose crudKind is DELETE. -/
theorem modal_delete_scenario
    (env : Env) (maxDepth : Nat) (item : QueueItem) (rest : List QueueItem)
    (seen : List String) (ops : List CrudRecord)
    (e : ClickableElement) (mc : List Obs) (fo : FormOracle) (f : FormData)
    (he : e ∈ iterCE env item.path)
    (ho : (env item.path).outcome e.selector =
      ClickOutcome.stayed (Except.ok mc) fo)
    (hmc : mc.length > 0)
    (hf : extractFormData (iterEFS env item.path) fo = [f])
    (htype : f.type = FormType.delete) :
    (∀ q ∈ (nextState env maxDepth item rest seen ops).queue,
        q ∈ rest ∨
        q.path ≠ item.path ++
          [{ intra_page_path := e.selector, is_new_link := true }]) ∧
    ((iterRecs env item.path).filter
        (fun r => r.path = item.path ++
          [{ intra_page_path := e.selector, is_new_link := false }])) =
      [mkModalRecord item.path e.selector f] ∧
    (mkModalRecord item.path e.selector f).operation = CrudOp.DELETE := by
  have hopf : f.operation = CrudOp.DELETE := by
    have hmem : f ∈ extractFormData (iterEFS env item.path) fo := by
      rw [hf]; exact List.mem_singleton_self f
    have := extractFormData_op_consistent (iterEFS env item.path) fo f hmem
    rw [htype] at this
    exact this
  refine ⟨?_, ?_, hopf⟩
  · intro q hq
    unfold nextState at hq
    by_cases hd : item.depth < maxDepth
    · rw [if_pos hd] at hq
      rcases enqueueNav_mem item.path item.depth (iterNM env item.path).1
          (seen, rest) q hq with h | ⟨e', he', heq, _⟩
      · exact Or.inl h
      · right
        rw [heq]
        dsimp only
        intro hcontra
        have he'nav := (testNav_nav_mem (env item.path).outcome
          (iterEFS env item.path) (iterCE env item.path) e' he').2
        have hsel : e'.selector = e.selector :=
          congrArg PathObject.intra_page_path (append_singleton_inj hcontra).2
        rw [hsel, ho] at he'nav
        exact ClickOutcome.noConfusion he'nav
    · rw [if_neg hd] at hq
      exact Or.inl hq
  · have hndce : ((iterCE env item.path).map (fun e => e.selector)).Nodup := by
      unfold iterCE
      exact extractClickableElements_sel_nodup _ _
    have hnd : (((iterNM env item.path).2).map
        (fun mo => mo.trigger.selector)).Nodup := by
      unfold iterNM
      exact testNav_trigger_nodup _ _ _ hndce
    have hmo0 : ({ trigger := e, modalContent := mc
                   forms := extractFormData (iterEFS env item.path) fo } : ModalOp) ∈
        (iterNM env item.path).2 := by
      unfold iterNM
      exact testNav_modal_exists _ _ _ e mc fo he ho hmc
    have hmod := modal_records_filter item.path e.selector
      (iterNM env item.path).2 hnd _ hmo0 rfl
    unfold iterRecs
    rw [List.filter_append, List.filter_append]
    have htab : ((iterTD env item.path).map (mkReadRecord item.path)).filter
        (fun r => r.path = item.path ++
          [{ intra_page_path := e.selector, is_new_link := false }]) = [] := by
      apply List.filter_eq_nil_iff.mpr
      intro r hr
      rcases List.mem_map.mp hr with ⟨t, _, htr⟩
      subst htr
      simp only [mkReadRecord, decide_eq_true_eq]
      exact path_ne_extend item.path _
    have hform : ((iterFD env item.path).map (mkFormRecord item.path)).filter
        (fun r => r.path = item.path ++
          [{ intra_page_path := e.selector, is_new_link := false }]) = [] := by
      apply List.filter_eq_nil_iff.mpr
      intro r hr
      rcases List.mem_map.mp hr with ⟨t, _, htr⟩
      subst htr
      simp only [mkFormRecord, decide_eq_true_eq]
      exact path_ne_extend item.path _
    rw [htab, hform, hmod]
    dsimp only
    rw [hf]
    simp

/-- Witness for C7 at a concrete delete-confirmation overlay. -/
theorem modal_delete_scenario_witness :
    (∀ q ∈ (nextState cEnvModal 1 ⟨[], 0⟩ [] [] []).queue,
        q ∈ ([] : List QueueItem) ∨
        q.path ≠ [] ++ [{ intra_page_path := "#del-btn", is_new_link := true }]) ∧
    ((iterRecs cEnvModal []).filter
        (fun r => r.path =
          [] ++ [{ intra_page_path := "#del-btn", is_new_link := false }])) =
      [mkModalRecord [] "#del-btn" cDeleteForm] ∧
    (mkModalRecord [] "#del-btn" cDeleteForm).operation = CrudOp.DELETE :=
  modal_delete_scenario cEnvModal 1 ⟨[], 0⟩ [] [] [] cDelClickable
    [⟨"#modal", "Delete confirmation modal"⟩] cDeleteFormOracle cDeleteForm
    (by decide) rfl (by decide) (by decide) rfl

/-! ## Path-measure utilities -/

/-- The empty path is all-navigation. -/
theorem allTrue_nil : allTrue [] := by
  intro s hs
  cases hs

/-- Appending a navigation Step keeps a path all-navigation. -/
theorem allTrue_append_true (p : List PathObject) (sel : String)
    (hp : allTrue p) :
    allTrue (p ++ [{ intra_page_path := sel, is_new_link := true }]) := by
  intro s hs
  rcases List.mem_append.mp hs with hs | hs
  · exact hp s hs
  · simp only [List.mem_singleton] at hs
    subst hs
    rfl

/-- On an all-navigation path, every Step counts. -/
theorem countTrue_of_allTrue (p : List PathObject) (hp : allTrue p) :
    countTrue p = p.length := by
  unfold countTrue
  rw [List.filter_eq_self.mpr (fun s hs => hp s hs)]

/-- A non-navigating Step does not add to the navigation count. -/
theorem countTrue_append_false (p : List PathObject) (s : PathObject)
    (hs : s.is_new_link = false) : countTrue (p ++ [s]) = countTrue p := by
  unfold countTrue
  rw [List.filter_append]
  simp [hs]

/-- An all-navigation path cannot end in a non-navigating Step. -/
theorem allTrue_no_false_last (q p : List PathObject) (s : PathObject)
    (hq : allTrue q) (heq : q = p ++ [s]) (hs : s.is_new_link = false) :
    False := by
  subst heq
  have := hq s (List.mem_append.mpr (Or.inr (List.mem_singleton_self s)))
  rw [hs] at this
  exact Bool.noConfusion this

/-! ## Record-shape lemmas for one iteration -/

/-- Every record of one iteration owns either the state path itself or
the state path extended by one non-navigating modal-trigger Step. -/
theorem iterRecs_path (env : Env) (p : List PathObject) :
    ∀ r ∈ iterRecs env p, r.path = p ∨
      ∃ t, r.path = p ++ [{ intra_page_path := t, is_new_link := false }] := by
  intro r hr
  unfold iterRecs at hr
  rcases List.mem_append.mp hr with hr | hr
  · rcases List.mem_append.mp hr with hr | hr
    · rcases List.mem_map.mp hr with ⟨t, _, htr⟩
      subst htr
      exact Or.inl rfl
    · rcases List.mem_map.mp hr with ⟨t, _, htr⟩
      subst htr
      exact Or.inl rfl
  · rcases List.mem_flatMap.mp hr with ⟨mo, _, hrmo⟩
    rcases List.mem_map.mp hrmo with ⟨f, _, hfr⟩
    subst hfr
    exact Or.inr ⟨mo.trigger.selector, rfl⟩

/-- The records of one iteration satisfy the corrected uniqueness
relation pairwise: only a collection record and a form record may share
`(path, selector)`. -/
theorem iterRecs_pairwise (env : Env) (p : List PathObject) :
    (iterRecs env p).Pairwise Ramend := by
  unfold iterRecs
  rw [List.pairwise_append]
  refine ⟨?_, ?_, ?_⟩
  · rw [List.pairwise_append]
    refine ⟨?_, ?_, ?_⟩
    · rw [List.pairwise_map]
      have h2 : List.Pairwise (fun a b => a ≠ b)
          ((iterTD env p).map (fun t => t.selector)) := by
        have := extractTabularData_sel_nodup (env p).tabular
        exact this
      rw [List.pairwise_map] at h2
      exact h2.imp (fun hne hpath hsel => absurd hsel hne)
    · rw [List.pairwise_map]
      have h2 : List.Pairwise (fun a b => a ≠ b)
          ((iterFD env p).map (fun f => f.selector)) := by
        have := extractFormData_sel_nodup [] (env p).form
        exact this
      rw [List.pairwise_map] at h2
      exact h2.imp (fun hne hpath hsel => absurd hsel hne)
    · intro a ha b hb
      rcases List.mem_map.mp ha with ⟨t, _, hta⟩
      rcases List.mem_map.mp hb with ⟨f, _, hfb⟩
      subst hta
      subst hfb
      intro _ _
      exact Or.inl ⟨rfl, rfl⟩
  · apply List.pairwise_flatMap.mpr
    constructor
    · intro mo hmo
      obtain ⟨e, _, mc, fo, _, _, hmoeq⟩ :=
        testNav_modal_mem (env p).outcome (iterEFS env p) (iterCE env p) mo hmo
      rw [List.pairwise_map]
      have h2 : List.Pairwise (fun a b => a ≠ b)
          (mo.forms.map (fun f => f.selector)) := by
        rw [hmoeq]
        exact extractFormData_sel_nodup (iterEFS env p) fo
      rw [List.pairwise_map] at h2
      exact h2.imp (fun hne hpath hsel => absurd hsel hne)
    · have htr : List.Pairwise
          (fun m1 m2 : ModalOp => m1.trigger.selector ≠ m2.trigger.selector)
          (iterNM env p).2 := by
        have h2 : List.Pairwise (fun a b => a ≠ b)
            ((iterNM env p).2.map (fun mo => mo.trigger.selector)) := by
          apply testNav_trigger_nodup
          unfold iterCE
          exact extractClickableElements_sel_nodup _ _
        rw [List.pairwise_map] at h2
        exact h2
      refine htr.imp ?_
      intro m1 m2 hne x hx y hy
      rcases List.mem_map.mp hx with ⟨f1, _, hf1⟩
      rcases List.mem_map.mp hy with ⟨f2, _, hf2⟩
      subst hf1
      subst hf2
      intro hpath
      exfalso
      have := (append_singleton_inj hpath).2
      exact hne (congrArg PathObject.intra_page_path this)
  · intro a ha b hb
    have hapath : a.path = p := by
      rcases List.mem_append.mp ha with ha | ha
      · rcases List.mem_map.mp ha with ⟨t, _, hta⟩
        subst hta
        rfl
      · rcases List.mem_map.mp ha with ⟨f, _, hfa⟩
        subst hfa
        rfl
    rcases List.mem_flatMap.mp hb with ⟨mo, _, hbmo⟩
    rcases List.mem_map.mp hbmo with ⟨f, _, hfb⟩
    subst hfb
    intro hpath
    exfalso
    rw [hapath] at hpath
    exact path_ne_extend p _ hpath

/-! ## The main-loop invariant -/

/-- One iteration of the main loop preserves the crawl invariant. -/
theorem crawl_step_inv (env : Env) (maxDepth : Nat) (item : QueueItem)
    (rest : List QueueItem) (seen : List String) (ops : List CrudRecord)
    (h : CrawlInv maxDepth ⟨item :: rest, seen, ops⟩) :
    CrawlInv maxDepth (nextState env maxDepth item rest seen ops) := by
  obtain ⟨hQ, hD, hS, hO, hP⟩ := h
  dsimp only at hQ hD hS hO hP
  obtain ⟨hdep, hptrue, hdle⟩ := hQ item (List.mem_cons_self _ _)
  have hShead := hS item (List.mem_cons_self _ _)
  have hDrest : ∀ b ∈ rest, item.path ≠ b.path := (List.pairwise_cons.mp hD).1
  have hDtail : rest.Pairwise (fun a b => a.path ≠ b.path) :=
    (List.pairwise_cons.mp hD).2
  have hSrest : ∀ it ∈ rest, page_hash (serializePath it.path) ∈ seen :=
    fun it hit => hS it (List.mem_cons_of_mem _ hit)
  have hOPS : (ops ++ iterRecs env item.path).Pairwise Ramend := by
    rw [List.pairwise_append]
    refine ⟨hP, iterRecs_pairwise env item.path, ?_⟩
    intro a ha b hb
    obtain ⟨base, ⟨hbT, hbpath⟩, _, hbhash, hbq⟩ := hO a ha
    have hbne : base ≠ item.path := hbq item (List.mem_cons_self _ _)
    intro hpath hsel
    exfalso
    rcases iterRecs_path env item.path b hb with hb1 | ⟨t, hb2⟩
    · rcases hbpath with ha1 | ⟨s, ha2, hs⟩
      · exact hbne (by rw [← ha1, hpath, hb1])
      · exact allTrue_no_false_last item.path base s hptrue
          (by rw [← hb1, ← hpath, ha2]) hs
    · rcases hbpath with ha1 | ⟨s, ha2, hs⟩
      · exact allTrue_no_false_last base item.path
          { intra_page_path := t, is_new_link := false } hbT
          (by rw [← ha1, hpath, hb2]) rfl
      · have heq2 : base ++ [s] =
            item.path ++ [{ intra_page_path := t, is_new_link := false }] := by
          rw [← ha2, hpath, hb2]
        exact hbne (append_singleton_inj heq2).1
  unfold nextState
  by_cases hd : item.depth < maxDepth
  · rw [if_pos hd]
    have hqok := enqueueNav_qok item.path item.depth (iterNM env item.path).1
      (seen, rest) hSrest hDtail
    refine ⟨?_, hqok.2, hqok.1, ?_, hOPS⟩
    · intro q hq
      rcases enqueueNav_mem item.path item.depth (iterNM env item.path).1
          (seen, rest) q hq with hq' | ⟨e, _, heq, _⟩
      · exact hQ q (List.mem_cons_of_mem _ hq')
      · subst heq
        refine ⟨?_, ?_, ?_⟩
        · dsimp only
          rw [List.length_append, ← hdep]
          rfl
        · exact allTrue_append_true item.path e.selector hptrue
        · exact Nat.succ_le_of_lt hd
    · intro r hr
      rcases List.mem_append.mp hr with hr | hr
      · obtain ⟨base, hshape, hlen, hbhash, hbq⟩ := hO r hr
        refine ⟨base, hshape, hlen, ?_, ?_⟩
        · exact enqueueNav_seen_mono item.path item.depth _ (seen, rest) _ hbhash
        · intro it hit
          rcases enqueueNav_mem item.path item.depth (iterNM env item.path).1
              (seen, rest) it hit with hit' | ⟨e, _, heq, hh⟩
          · exact hbq it (List.mem_cons_of_mem _ hit')
          · subst heq
            dsimp only
            intro hcontra
            apply hh
            dsimp only
            rw [← hcontra]
            exact hbhash
      · refine ⟨item.path, ⟨hptrue, ?_⟩, ?_, ?_, ?_⟩
        · rcases iterRecs_path env item.path r hr with h1 | ⟨t, h2⟩
          · exact Or.inl h1
          · exact Or.inr ⟨_, h2, rfl⟩
        · rw [← hdep]
          exact hdle
        · exact enqueueNav_seen_mono item.path item.depth _ (seen, rest) _ hShead
        · intro it hit
          rcases enqueueNav_mem item.path item.depth (iterNM env item.path).1
              (seen, rest) it hit with hit' | ⟨e, _, heq, _⟩
          · exact hDrest it hit'
          · subst heq
            exact path_ne_extend item.path _
  · rw [if_neg hd]
    refine ⟨?_, hDtail, hSrest, ?_, hOPS⟩
    · intro q hq
      exact hQ q (List.mem_cons_of_mem _ hq)
    · intro r hr
      rcases List.mem_append.mp hr with hr | hr
      · obtain ⟨base, hshape, hlen, hbhash, hbq⟩ := hO r hr
        exact ⟨base, hshape, hlen, hbhash,
          fun it hit => hbq it (List.mem_cons_of_mem _ hit)⟩
      · refine ⟨item.path, ⟨hptrue, ?_⟩, ?_, hShead, ?_⟩
        · rcases iterRecs_path env item.path r hr with h1 | ⟨t, h2⟩
          · exact Or.inl h1
          · exact Or.inr ⟨_, h2, rfl⟩
        · rw [← hdep]
          exact hdle
        · intro it hit
          exact hDrest it hit

/-- The initial crawler state satisfies the invariant. -/
theorem crawlInv_init (maxDepth : Nat) : CrawlInv maxDepth initState := by
  refine ⟨?_, ?_, ?_, ?_, ?_⟩
  · intro it hit
    rcases List.mem_singleton.mp hit with rfl
    exact ⟨rfl, allTrue_nil, Nat.zero_le _⟩
  · exact List.pairwise_singleton _ _
  · intro it hit
    rcases List.mem_singleton.mp hit with rfl
    exact List.mem_singleton_self _
  · intro r hr
    cases hr
  · exact List.Pairwise.nil

/-- The crawl invariant holds after any number of loop iterations. -/
theorem crawlInv_crawl (env : Env) (maxDepth : Nat) :
    ∀ (fuel : Nat) (st : CrawlState),
      CrawlInv maxDepth st → CrawlInv maxDepth (crawl env maxDepth fuel st) := by
  intro fuel
  induction fuel with
  | zero => intro st h; exact h
  | succ n ih =>
    intro st h
    rw [crawl]
    cases hq : st.queue with
    | nil => exact h
    | cons item rest =>
      apply ih
      apply crawl_step_inv
      obtain ⟨q, s, o⟩ := st
      dsimp only at hq
      subst hq
      exact h

/-- C3: with configured maximum depth N, every Operation Record the
crawl ever appends has an owning path with at most N navigation Steps
(`is_new_link = true`): navigation edges are enqueued only below the
depth bound, and modal records add only a non-navigating Step. -/
theorem corpus_depth_bound (env : Env) (maxDepth fuel : Nat) :
    ∀ r ∈ (crawl env maxDepth fuel initState).ops,
      countTrue r.path ≤ maxDepth := by
  intro r hr
  obtain ⟨base, ⟨hbT, hbpath⟩, hlen, _, _⟩ :=
    (crawlInv_crawl env maxDepth fuel initState
      (crawlInv_init maxDepth)).2.2.2.1 r hr
  rcases hbpath with h1 | ⟨s, h2, hs⟩
  · rw [h1, countTrue_of_allTrue base hbT]
    exact hlen
  · rw [h2, countTrue_append_false base s hs, countTrue_of_allTrue base hbT]
    exact hlen

/-- Witness for C3 at a concrete one-table environment. -/
theorem corpus_depth_bound_witness :
    cReadRecord ∈ (crawl cEnvDup 1 1 initState).ops ∧
    countTrue cReadRecord.path ≤ 1 :=
  ⟨by decide, corpus_depth_bound cEnvDup 1 1 cReadRecord (by decide)⟩

/-- C10: for every item ever present in the frontier queue, its depth
field equals the number of Steps in its path — the initial item is the
empty path at depth 0, and each enqueued item extends its parent's path
by one Step while incrementing depth by one. -/
theorem frontier_depth_eq_length (env : Env) (maxDepth fuel : Nat) :
    ∀ it ∈ (crawl env maxDepth fuel initState).queue,
      it.depth = it.path.length := by
  intro it hit
  exact ((crawlInv_crawl env maxDepth fuel initState
    (crawlInv_init maxDepth)).1 it hit).1

/-- Witness for C10 at the initial frontier. -/
theorem frontier_depth_eq_length_witness :
    ({ path := [], depth := 0 } : QueueItem) ∈ (crawl cEnvDup 1 0 initState).queue ∧
    ({ path := [], depth := 0 } : QueueItem).depth =
      ({ path := [], depth := 0 } : QueueItem).path.length :=
  ⟨by decide, frontier_depth_eq_length cEnvDup 1 0 ⟨[], 0⟩ (by decide)⟩

/-- C4 counterexample: one discovery run in which the collection
classifier and the form classifier both report the selector `#x` in the
same state, so two Operation Records share the `(path, selector)`
pair. -/
theorem corpus_pair_collision_cex :
    ¬ (((crawl cEnvDup 1 1 initState).ops.map
        (fun r => (r.path, r.selector))).Nodup) := by
  decide

/-- C4 (amended): over any discovery run, two Operation Records can
share an identical `(path, selector)` pair only when one is a
collection record and the other a form record (necessarily of the same
state); records produced by the same classifier never collide, within
one state or across states. -/
theorem corpus_pair_uniqueness (env : Env) (maxDepth fuel : Nat) :
    ((crawl env maxDepth fuel initState).ops).Pairwise Ramend :=
  (crawlInv_crawl env maxDepth fuel initState (crawlInv_init maxDepth)).2.2.2.2

/-! ## Pass decomposition lemmas (for the input-dedup claim) -/

/-- Selectors claimed by `buildInputs` all come from the reported
list. -/
theorem buildInputs_sels_subset (mk : Obs → FormInput)
    (hmk : ∀ ob, (mk ob).selector = ob.selector) :
    ∀ (l : List Obs) (u : List String),
      ∀ x ∈ (buildInputs mk l u).1.map (fun i => i.selector),
        x ∈ l.map (fun ob => ob.selector) := by
  intro l
  induction l with
  | nil => intro u x hx; simp [buildInputs] at hx
  | cons i rest ih =>
    intro u x hx
    by_cases hc : i.selector ∈ u
    · rw [buildInputs, if_pos (List.elem_iff.mpr hc)] at hx
      exact List.mem_cons_of_mem _ (ih u x hx)
    · rw [buildInputs, if_neg (by simpa using hc)] at hx
      simp only [List.map_cons, hmk i, List.mem_cons] at hx
      rcases hx with hx | hx
      · exact List.mem_cons.mpr (Or.inl hx)
      · exact List.mem_cons_of_mem _ (ih _ x hx)

/-- Retaining a form with freshly claimed inputs preserves the pass
invariant. -/
theorem passInv_push (mk : Obs → FormInput) (mkF : Obs → List FormInput → FormData)
    (hmk : ∀ ob, (mk ob).selector = ob.selector)
    (hFsel : ∀ c ins, (mkF c ins).selector = c.selector)
    (hFinp : ∀ c ins, (mkF c ins).inputs = ins)
    (hFop : ∀ c ins, (mkF c ins).operation = determineFormOperation (mkF c ins).type)
    (st : PassState) (c : Obs) (obs : List Obs)
    (h1 : c.selector ∉ st.seen) (hinv : PassInv st) :
    PassInv ⟨st.fd ++ [mkF c (buildInputs mk obs st.used).1],
             c.selector :: st.seen, (buildInputs mk obs st.used).2⟩ := by
  obtain ⟨hnd, hseen, hind, hused, hop⟩ := hinv
  refine ⟨?_, ?_, ?_, ?_, ?_⟩
  · rw [List.map_append, List.nodup_append]
    refine ⟨hnd, by simp, ?_⟩
    intro a ha hb
    simp only [List.map_cons, List.map_nil, List.mem_singleton, hFsel] at hb
    rcases List.mem_map.mp ha with ⟨f, hf, hfa⟩
    exact h1 (hb ▸ hfa ▸ hseen f hf)
  · intro f hf
    rcases List.mem_append.mp hf with hf | hf
    · exact List.mem_cons_of_mem _ (hseen f hf)
    · simp only [List.mem_singleton] at hf
      subst hf
      simp [hFsel]
  · rw [inpFlat_append, List.nodup_append]
    refine ⟨hind, ?_, ?_⟩
    · simpa [inpFlat, hFinp] using (buildInputs_sel_nodup mk hmk obs st.used).1
    · intro a ha hb
      simp only [inpFlat, List.flatMap_cons, List.flatMap_nil,
        List.append_nil, hFinp] at hb
      exact buildInputs_not_mem mk hmk obs st.used a ((hused a).mpr ha) hb
  · intro s
    rw [buildInputs_used_iff mk hmk obs st.used s, inpFlat_append]
    simp only [inpFlat, List.flatMap_cons, List.flatMap_nil,
      List.append_nil, hFinp, List.mem_append]
    rw [hused s]
    simp [inpFlat]
  · intro f hf
    rcases List.mem_append.mp hf with hf | hf
    · exact hop f hf
    · simp only [List.mem_singleton] at hf
      subst hf
      exact hFop c _

/-- Dropping an input-less container (only the used set grew) preserves
the pass invariant. -/
theorem passInv_drop (mk : Obs → FormInput)
    (hmk : ∀ ob, (mk ob).selector = ob.selector)
    (st : PassState) (obs : List Obs)
    (hlen : ¬ (buildInputs mk obs st.used).1.length > 0) (hinv : PassInv st) :
    PassInv { st with used := (buildInputs mk obs st.used).2 } := by
  obtain ⟨hnd, hseen, hind, hused, hop⟩ := hinv
  have hre : (buildInputs mk obs st.used).1 = [] :=
    List.length_eq_zero.mp (Nat.eq_zero_of_not_pos hlen)
  refine ⟨hnd, hseen, hind, ?_, hop⟩
  intro s
  rw [buildInputs_used_iff mk hmk obs st.used s, hre]
  simp [hused s]

/-- Skipping a prefix of containers none of which reports the input
selector `s` nor carries the container selector `Asel`: the pass
reaches the suffix in a state that still has `s` unclaimed and `Asel`
unseen. -/
theorem genPass_skip_prefix (q : String → Except Unit (List Obs)) (g : Obs → Bool)
    (mk : Obs → FormInput) (mkF : Obs → List FormInput → FormData)
    (hmk : ∀ ob, (mk ob).selector = ob.selector)
    (hFsel : ∀ c ins, (mkF c ins).selector = c.selector)
    (hFinp : ∀ c ins, (mkF c ins).inputs = ins)
    (hFop : ∀ c ins, (mkF c ins).operation = determineFormOperation (mkF c ins).type)
    (s Asel : String) :
    ∀ (pre l2 : List Obs) (st : PassState),
      (∀ c ∈ pre, ∃ il, q c.selector = Except.ok il ∧
        s ∉ il.map (fun ob => ob.selector)) →
      s ∉ st.used → Asel ∉ st.seen → Asel ∉ pre.map (fun ob => ob.selector) →
      PassInv st →
      ∃ st' : PassState,
        genPass q g mk mkF (pre ++ l2) st = genPass q g mk mkF l2 st' ∧
        s ∉ st'.used ∧ Asel ∉ st'.seen ∧ PassInv st' := by
  intro pre
  induction pre with
  | nil =>
    intro l2 st _ hs hA _ hinv
    exact ⟨st, rfl, hs, hA, hinv⟩
  | cons c pre' ih =>
    intro l2 st hpre hs hA hApre hinv
    have hpre' : ∀ c ∈ pre', ∃ il, q c.selector = Except.ok il ∧
        s ∉ il.map (fun ob => ob.selector) :=
      fun c hc => hpre c (List.mem_cons_of_mem _ hc)
    have hApre' : Asel ∉ pre'.map (fun ob => ob.selector) := by
      intro hmem
      exact hApre (List.mem_cons_of_mem _ hmem)
    have hAc : Asel ≠ c.selector := by
      intro h
      exact hApre (List.mem_cons.mpr (Or.inl h))
    rw [List.cons_append, genPass]
    by_cases h1 : c.selector ∈ st.seen
    · rw [if_pos (List.elem_iff.mpr h1)]
      exact ih l2 st hpre' hs hA hApre' hinv
    · rw [if_neg (by simpa using h1)]
      cases h2 : g c
      · rw [if_neg (by simp)]
        exact ih l2 st hpre' hs hA hApre' hinv
      · rw [if_pos rfl]
        obtain ⟨il, hil, hsil⟩ := hpre c (List.mem_cons_self _ _)
        rw [hil]
        dsimp only
        have hsu : s ∉ (buildInputs mk il st.used).2 := by
          intro hmem
          rcases (buildInputs_used_iff mk hmk il st.used s).mp hmem with h | h
          · exact hs h
          · exact hsil (buildInputs_sels_subset mk hmk il st.used s h)
        by_cases h3 : (buildInputs mk il st.used).1.length > 0
        · rw [if_pos h3]
          apply ih l2 _ hpre' hsu ?_ hApre'
            (passInv_push mk mkF hmk hFsel hFinp hFop st c il h1 hinv)
          intro hmem
          rcases List.mem_cons.mp hmem with hmem | hmem
          · exact hAc hmem
          · exact hA hmem
        · rw [if_neg h3]
          exact ih l2 _ hpre' hsu hA hApre'
            (passInv_drop mk hmk st il h3 hinv)

/-- C6: within one extraction call, an input selector reported for two
different form containers ends up in the synthesized inputs of exactly
one Form Entity — the earlier-processed claiming form — and is skipped
for every later form: provided no earlier container's input query
reports the selector, the form `A` claims it, every other synthesized
form of this and the later passes omits it, and the input selectors of
the whole call are globally duplicate-free. -/
theorem extractFormData_input_dedup
    (ex : List String) (o : FormOracle) (A B : Obs) (pre rest ia ib : List Obs)
    (s : String)
    (hm : o.modalElements = Except.ok [])
    (hf : o.forms false = Except.ok (pre ++ A :: rest))
    (hpre : ∀ c ∈ pre, ∃ il, o.formInputs c.selector = Except.ok il ∧
      s ∉ il.map (fun ob => ob.selector))
    (hA1 : A.selector ∉ ex)
    (hA2 : A.selector ∉ pre.map (fun ob => ob.selector))
    (hia : o.formInputs A.selector = Except.ok ia)
    (hsa : s ∈ ia.map (fun ob => ob.selector))
    (hB : B ∈ rest)
    (hib : o.formInputs B.selector = Except.ok ib)
    (hsb : s ∈ ib.map (fun ob => ob.selector)) :
    ∃ F ∈ extractFormData ex o, F.selector = A.selector ∧
      s ∈ F.inputs.map (fun i => i.selector) ∧
      (∀ G ∈ extractFormData ex o, s ∈ G.inputs.map (fun i => i.selector) →
        G.selector = A.selector) ∧
      (inpFlat (extractFormData ex o)).Nodup := by
  obtain ⟨st1, hskip, hs1, hA1', hinv1⟩ :=
    genPass_skip_prefix o.formInputs (fun _ => true) mkPrimaryInput mkPrimaryForm
      (fun _ => rfl) (fun _ _ => rfl) (fun _ _ => rfl) (fun _ _ => rfl)
      s A.selector pre (A :: rest) ⟨[], ex, []⟩ hpre (List.not_mem_nil s) hA1 hA2
      (passInv_init ex)
  have hs1b : s ∈ (buildInputs mkPrimaryInput ia st1.used).1.map
      (fun i => i.selector) :=
    buildInputs_mem mkPrimaryInput (fun _ => rfl) ia st1.used s hsa hs1
  have hlen : (buildInputs mkPrimaryInput ia st1.used).1.length > 0 := by
    cases hh : (buildInputs mkPrimaryInput ia st1.used).1 with
    | nil => rw [hh] at hs1b; simp at hs1b
    | cons x xs => simp [hh]
  have hstepA : genPass o.formInputs (fun _ => true) mkPrimaryInput mkPrimaryForm
      (A :: rest) st1 =
      genPass o.formInputs (fun _ => true) mkPrimaryInput mkPrimaryForm rest
        ⟨st1.fd ++ [mkPrimaryForm A (buildInputs mkPrimaryInput ia st1.used).1],
         A.selector :: st1.seen, (buildInputs mkPrimaryInput ia st1.used).2⟩ := by
    rw [genPass, if_neg (by simpa using hA1'), if_pos rfl, hia]
    dsimp only
    rw [if_pos hlen]
  obtain ⟨stR, heq, hpreR, honlyR⟩ :=
    extractFormData_from_primary ex o [] (pre ++ A :: rest) hm (by simpa using hf)
  unfold primaryPass at hpreR honlyR
  rw [hskip, hstepA] at hpreR honlyR
  have husedA : s ∈ (buildInputs mkPrimaryInput ia st1.used).2 :=
    (buildInputs_used_iff mkPrimaryInput (fun _ => rfl) ia st1.used s).mpr
      (Or.inr hs1b)
  have honlyA : onlyClaimedBy s A.selector
      (st1.fd ++ [mkPrimaryForm A (buildInputs mkPrimaryInput ia st1.used).1]) := by
    intro f hf' hsf
    rcases List.mem_append.mp hf' with hf' | hf'
    · exfalso
      apply hs1
      exact (hinv1.2.2.2.1 s).mpr (List.mem_flatMap.mpr ⟨f, hf', hsf⟩)
    · simp only [List.mem_singleton] at hf'
      subst hf'
      rfl
  have honly1 := genPass_onlyClaimed o.formInputs (fun _ => true) mkPrimaryInput
    mkPrimaryForm (fun _ => rfl) (fun _ _ => rfl) s A.selector rest
    ⟨st1.fd ++ [mkPrimaryForm A (buildInputs mkPrimaryInput ia st1.used).1],
     A.selector :: st1.seen, (buildInputs mkPrimaryInput ia st1.used).2⟩
    husedA honlyA
  have hpre1 := genPass_fd_prefix o.formInputs (fun _ => true) mkPrimaryInput
    mkPrimaryForm rest
    ⟨st1.fd ++ [mkPrimaryForm A (buildInputs mkPrimaryInput ia st1.used).1],
     A.selector :: st1.seen, (buildInputs mkPrimaryInput ia st1.used).2⟩
  refine ⟨mkPrimaryForm A (buildInputs mkPrimaryInput ia st1.used).1,
    ?_, rfl, hs1b, ?_, ?_⟩
  · rw [heq]
    apply hpreR.subset
    apply hpre1.subset
    exact List.mem_append.mpr (Or.inr (List.mem_singleton_self _))
  · rw [heq]
    exact honlyR s A.selector honly1.1 honly1.2
  · exact extractFormData_inp_nodup ex o

/-- Witness for C6: two concrete forms whose input queries both report
`#shared`. -/
theorem extractFormData_input_dedup_witness :
    cOverlapOracle.modalElements = Except.ok [] ∧
    cOverlapOracle.forms false =
      Except.ok [⟨"#fa", "Login form"⟩, ⟨"#fb", "Contact form"⟩] ∧
    (∃ F ∈ extractFormData [] cOverlapOracle, F.selector = "#fa" ∧
      "#shared" ∈ F.inputs.map (fun i => i.selector) ∧
      (∀ G ∈ extractFormData [] cOverlapOracle,
        "#shared" ∈ G.inputs.map (fun i => i.selector) → G.selector = "#fa") ∧
      (inpFlat (extractFormData [] cOverlapOracle)).Nodup) :=
  ⟨rfl, rfl,
   extractFormData_input_dedup [] cOverlapOracle ⟨"#fa", "Login form"⟩
     ⟨"#fb", "Contact form"⟩ [] [⟨"#fb", "Contact form"⟩]
     [⟨"#shared", "Email input"⟩] [⟨"#shared", "Email input"⟩] "#shared"
     rfl rfl (fun c hc => absurd hc (List.not_mem_nil c)) (by decide) (by decide)
     rfl (by decide) (by decide) rfl (by decide)⟩
